import Mathlib

/-!
# Verification of the fluxy release engine (`release/releaser.go`)

This file shallowly embeds the release engine of the repository: the data
model (`ServiceID`, `ImageID`, containers, services, regrade specs), the
planner functions (`releaseAllToLatest`, `releaseAllForImage`,
`releaseOneToLatest`, `releaseOne`, `releaseOneWithoutUpdate`,
`releaseAllWithoutUpdate`), the action closures (`releaseActionPrintf`,
`releaseActionClone`, `releaseActionFindPodController`,
`releaseActionUpdatePodController`, `releaseActionCommitAndPush`,
`releaseActionRegradeServices`) and the executor (`releaser.execute`,
`releaser.Release`).

External collaborators (the platform, the image registry, the git repo and
the filesystem) are modelled as an environment `Env` of response oracles;
every observable interaction with them is recorded in an effect trace.
Closures become plan data (`ActionSpec`) plus one interpreter (`doAction`)
whose branches are the closure bodies, following the tagged-variant shape
the repository's own design notes suggest.  Types of the `flux` core
package and the `helper` package are not under `src/`; they are modelled
from the spec where needed, and each such definition says so in its doc
comment.  Metrics instrumentation (histograms, timers) is observable by
no claim and is omitted.
-/

/-- Modelled from the spec: `ServiceID` is a `(namespace, name)` string
pair with canonical form `namespace/name` (spec §3); the `flux` core
package holding it is not under `src/`.  Go's `ServiceID.Components()`
returns the two components. -/
structure ServiceID where
  ns : String
  name : String
deriving DecidableEq, Repr

/-- Canonical `namespace/name` form of a service ID (spec §3). -/
def ServiceID.canonical (s : ServiceID) : String :=
  s.ns ++ "/" ++ s.name

/-- List-level worker for `splitOnChar`. -/
def splitChar (c : Char) : List Char → List (List Char)
  | [] => [[]]
  | x :: xs =>
    match splitChar c xs with
    | [] => if x = c then [[], []] else [[x]]
    | y :: ys => if x = c then [] :: y :: ys else (x :: y) :: ys

/-- `strings.Split` on one separator character, over the character list
(semantically `String.splitOn` for a one-character separator, written
so the kernel can evaluate it). -/
def splitOnChar (c : Char) (s : String) : List String :=
  (splitChar c s.toList).map String.mk

/-- Whether the string holds the character (semantically
`String.contains`, written so the kernel can evaluate it). -/
def containsChar (c : Char) (s : String) : Bool :=
  s.toList.contains c

/-- Modelled from the spec: parsing a service selector `namespace/name`;
fails when there is no separator.  When the string holds more than one
`/`, the namespace is the part before the first one (split-in-two
semantics). -/
def parseServiceID (s : String) : Except String ServiceID :=
  match splitOnChar '/' s with
  | [] => .error ("invalid service ID " ++ s)
  | [_] => .error ("invalid service ID " ++ s)
  | n :: rest => .ok ⟨n, String.intercalate "/" rest⟩

/-- Modelled from the spec: `ImageID` has components `(host?, repository,
tag?)` parsed from `host/repo:tag` with host and tag optional; two ids
compare equal iff all three components are equal (spec §3, §6). Empty
strings stand for absent components. -/
structure ImageID where
  host : String
  repo : String
  tag : String
deriving DecidableEq, Repr

/-- Modelled from the spec: `Repository()` returns the host+repository
portion of the image reference (spec §6). -/
def ImageID.repository (i : ImageID) : String :=
  if i.host = "" then i.repo else i.host ++ "/" ++ i.repo

/-- The full reference string `[host/]repository[:tag]` (Go's
`ImageID.String()`). -/
def ImageID.ref (i : ImageID) : String :=
  i.repository ++ (if i.tag = "" then "" else ":" ++ i.tag)

/-- Modelled from the spec: lenient, total parsing of the image-reference
grammar `[host/]repository[:tag]` (spec §6).  The tag is the part after
the last `:` provided it holds no `/` (so a registry port is not taken
for a tag); the host is the part before the first `/` when one exists. -/
def parseImageID (s : String) : ImageID :=
  let (repoStr, tag) :=
    match splitOnChar ':' s with
    | [] => (s, "")
    | [_] => (s, "")
    | p :: ps =>
      let last := (p :: ps).getLast (by simp)
      if containsChar '/' last then (s, "")
      else (String.intercalate ":" ((p :: ps).dropLast), last)
  match splitOnChar '/' repoStr with
  | [] => ⟨"", repoStr, tag⟩
  | [_] => ⟨"", repoStr, tag⟩
  | n :: rest => ⟨n, String.intercalate "/" rest, tag⟩

/-- A container specification in a pod: name plus configured image
reference (`platform.Container`, `src/platform/platform.go`). -/
structure Container where
  name : String
  image : String
deriving DecidableEq, Repr

deriving instance DecidableEq for Except

/-- Modelled from the spec: the service record the engine consumes — its
`ServiceID` and its running containers, or the error the platform gave
for them (`flux.Service.ContainersOrError()` in the missing core
package; spec §4.1 step 2). -/
structure FService where
  id : ServiceID
  containersOrError : Except String (List Container)
deriving DecidableEq, Repr

/-- An image held by the registry together with its creation time
(spec §6: `Image{ref_string, createdAt}`). -/
structure ImageDesc where
  id : ImageID
  createdAt : Nat
deriving DecidableEq, Repr

/-- Modelled from the spec: the available-image map built by
`helper.CollectAvailableImages`, keyed by repository (spec §4.1 step
3a).  An association list stands for the Go map. -/
abbrev ImageMap := List (String × List ImageDesc)

/-- Look a repository up in an `ImageMap`. -/
def ImageMap.find (m : ImageMap) (repo : String) : Option (List ImageDesc) :=
  (List.lookup repo m)

/-- Modelled from the spec: `LatestImage` selects, among the images of
the repository, the one with the greatest `createdAt` (spec §4.1 step
3a; the spec leaves ties unspecified — the first maximum wins here), and
fails when the repository has no images. -/
def ImageMap.latestImage (m : ImageMap) (repo : String) : Except String ImageDesc :=
  match m.find repo with
  | none => .error ("no images found for " ++ repo)
  | some [] => .error ("no images found for " ++ repo)
  | some (d :: ds) =>
    .ok (ds.foldl (fun best x => if best.createdAt < x.createdAt then x else best) d)

/-- `platform.NamespacedService` (`src/platform/platform.go`). -/
structure NamespacedService where
  ns : String
  svc : String
deriving DecidableEq, Repr

/-- `platform.RegradeSpec` (`src/platform/platform.go`): a namespaced
service plus the new pod-controller definition bytes (bytes modelled as
a string). -/
structure RegradeSpec where
  nsSvc : NamespacedService
  newDefinition : String
deriving DecidableEq, Repr

/-- `platform.RegradeError` (`src/platform/platform.go`): a map from
namespaced service to error, modelled as an association list with
distinct keys. -/
abbrev RegradeError := List (NamespacedService × String)

/-- `RegradeError.Error()` (`src/platform/platform.go`): the joined
per-service messages. -/
def RegradeError.message (e : RegradeError) : String :=
  String.intercalate "; " (e.map (fun p => p.1.ns ++ "/" ++ p.1.svc ++ ": " ++ p.2))

/-- `flux.ReleaseContext` as used by the closures: checkout path, key
path, and the map from service to manifest bytes (spec §3; the core
package is not under `src/`). -/
structure ReleaseContext where
  repoPath : String
  repoKey : String
  podControllers : List (ServiceID × String)
deriving DecidableEq, Repr

/-- `flux.NewReleaseContext()`: the empty context. -/
def newReleaseContext : ReleaseContext := ⟨"", "", []⟩

/-- `containerRegrade` (`src/release/releaser.go`): one per-container
image change. -/
structure ContainerRegrade where
  container : String
  current : ImageID
  target : ImageID
deriving DecidableEq, Repr

/-- `flux.ReleaseKind` — `{Plan, Execute}` (spec §3). -/
inductive ReleaseKind where
  | plan
  | execute
deriving DecidableEq, Repr

/-- Modelled from the spec: a `ServiceSpec` is the all-services sentinel
or a (still unparsed) service selector string (spec §3). -/
inductive ServiceSpec where
  | all
  | one (sel : String)
deriving DecidableEq, Repr

/-- Modelled from the spec: an `ImageSpec` is the `latest` sentinel, the
no-change sentinel, or a specific (still unparsed) image reference
(spec §3). -/
inductive ImageSpec where
  | latest
  | noChange
  | image (ref : String)
deriving DecidableEq, Repr

/-- `flux.ReleaseJobSpec`: selectors, kind, and excluded services
(spec §3). The excludes set is modelled as a list; membership is what
matters. -/
structure ReleaseJobSpec where
  serviceSpec : ServiceSpec
  imageSpec : ImageSpec
  kind : ReleaseKind
  excludes : List ServiceID
deriving DecidableEq, Repr

/-- `flux.ServiceIDSet.Contains`, on the list model of the set. -/
def containsServiceID (ex : List ServiceID) (s : ServiceID) : Bool :=
  ex.contains s

/-- Every observable interaction with an external collaborator, in the
order it happens. -/
inductive Effect where
  | platformQueryServices
  | registryFetch (repo : String)
  | repoClone
  | fileWrite (path : String)
  | repoCommitPush (msg : String)
  | platformRegrade (specs : List RegradeSpec)
  | historyEvent (ns svc msg : String)
deriving DecidableEq, Repr

/-- Effects that mutate the repo, the files, the platform or the history
(everything except read-only queries). -/
def Effect.isWrite : Effect → Bool
  | .platformQueryServices => false
  | .registryFetch _ => false
  | .repoClone => true
  | .fileWrite _ => true
  | .repoCommitPush _ => true
  | .platformRegrade _ => true
  | .historyEvent _ _ _ => true

/-- The environment of response oracles standing for the external
collaborators (spec §6 contracts).  Each field answers one kind of call
the engine makes; determinism is adequate for every claim below.
`allServices ns ignore` models `platform.AllServices` (documented in
`src/platform/kubernetes/kubernetes.go` as the services in the
namespace and not in the ignore set); `someServices` models the
platform query behind `helper.GetServices`; `registry` models
`Registry.GetRepository`; `clone` and `commitPush` model the repo port;
the file oracles model the checkout filesystem; `rewrite` models
`kubernetes.UpdatePodController`; `regrade` models
`platform.Regrade` — `none` is total success, otherwise a
`RegradeError` (contract in `src/platform/kubernetes/kubernetes.go`). -/
structure Env where
  allServices : String → List ServiceID → Except String (List FService)
  someServices : List ServiceID → Except String (List FService)
  registry : String → Except String (List ImageDesc)
  clone : Except String (String × String)
  statDirOk : String → Bool
  filesFor : String → String → String → Except String (List String)
  readFile : String → Except String String
  statFile : String → Option String
  rewrite : String → String → Except String String
  writeFileRes : String → String → Option String
  statKeyErr : String → Option String
  commitPush : String → String → String → String × Option String
  regrade : List RegradeSpec → Option RegradeError

/-- Go map assignment `m[k] = v` on the association-list model: replace
the value when the key is present, append otherwise. -/
def mapInsert {α β : Type} [DecidableEq α] (m : List (α × β)) (k : α) (v : β) :
    List (α × β) :=
  if (List.lookup k m).isSome then m.map (fun p => if p.1 = k then (k, v) else p)
  else m ++ [(k, v)]

/-- The plan steps as data: one constructor per `releaseActionX`
constructor of `src/release/releaser.go`, holding the arguments the Go
closure captures. -/
inductive ActionSpec where
  | printf (msg : String)
  | clone
  | findPodController (svc : ServiceID)
  | updatePodController (svc : ServiceID) (regrades : List ContainerRegrade)
  | commitAndPush (msg : String)
  | regradeServices (svcs : List ServiceID) (cause : String)
deriving DecidableEq, Repr

/-- The `%s (%s -> %s)` fragment of the update-pod-controller
description (`releaser.go:637`). -/
def regradeText (r : ContainerRegrade) : String :=
  r.container ++ " (" ++ r.current.ref ++ " -> " ++ r.target.ref ++ ")"

/-- The `Description` field each `releaseActionX` constructor fills in
(`src/release/releaser.go`). -/
def ActionSpec.description : ActionSpec → String
  | .printf msg => msg
  | .clone => "Clone the config repo."
  | .findPodController svc =>
      "Load the resource definition file for service " ++ svc.canonical
  | .updatePodController svc rs =>
      "Update " ++ toString rs.length ++ " images(s) in the resource definition file for "
        ++ svc.canonical ++ ": " ++ String.intercalate ", " (rs.map regradeText) ++ "."
  | .commitAndPush _ => "Commit and push the config repo."
  | .regradeServices svcs _ =>
      "Regrade " ++ toString svcs.length ++ " service(s): "
        ++ String.intercalate ", " (svcs.map ServiceID.canonical) ++ "."

/-- `flux.ReleaseAction`: the plan step plus the `Result` the executor
fills in. -/
structure ReleaseAction where
  spec : ActionSpec
  result : String
deriving DecidableEq, Repr

/-- A freshly planned action (empty result). -/
def mkAction (s : ActionSpec) : ReleaseAction := ⟨s, ""⟩

/-- Body of the `releaseActionClone` closure (`releaser.go:573-593`). -/
def cloneDo (env : Env) (rc : ReleaseContext) :
    ReleaseContext × List Effect × Except String String :=
  match env.clone with
  | .error e => (rc, [.repoClone], .error ("clone the config repo: " ++ e))
  | .ok (path, key) =>
      ({ rc with repoPath := path, repoKey := key }, [.repoClone], .ok "Clone OK.")

/-- Body of the `releaseActionFindPodController` closure
(`releaser.go:595-632`). -/
def findPodControllerDo (env : Env) (subPath : String) (svc : ServiceID)
    (rc : ReleaseContext) : ReleaseContext × List Effect × Except String String :=
  let resourcePath := rc.repoPath ++ "/" ++ subPath
  if ¬ env.statDirOk resourcePath then
    (rc, [], .error ("the resource path (" ++ resourcePath ++ ") is not valid"))
  else
    match env.filesFor resourcePath svc.ns svc.name with
    | .error e =>
        (rc, [], .error ("finding resource definition file for " ++ svc.canonical ++ ": " ++ e))
    | .ok [] =>
        (rc, [], .ok ("no resource definition file found for " ++ svc.canonical ++ "; skipping"))
    | .ok [f] =>
        (match env.readFile f with
         | .error e => (rc, [], .error e)
         | .ok d =>
             ({ rc with podControllers := mapInsert rc.podControllers svc d }, [],
              .ok "Found pod controller OK."))
    | .ok files =>
        (rc, [], .error ("multiple resource definition files found for " ++ svc.canonical
          ++ ": " ++ String.intercalate ", " files))

/-- The rewrite loop of `releaseActionUpdatePodController`
(`releaser.go:677-690`): each regrade's target rewritten into the same
definition in turn. -/
def foldRewrites (env : Env) : String → List ContainerRegrade → Except String String
  | d, [] => .ok d
  | d, r :: rs =>
    match env.rewrite d r.target.ref with
    | .error e => .error ("updating pod controller for " ++ r.target.ref ++ ": " ++ e)
    | .ok d2 => foldRewrites env d2 rs

/-- Body of the `releaseActionUpdatePodController` closure
(`releaser.go:634-702`). -/
def updatePodControllerDo (env : Env) (subPath : String) (svc : ServiceID)
    (regrades : List ContainerRegrade) (rc : ReleaseContext) :
    ReleaseContext × List Effect × Except String String :=
  let resourcePath := rc.repoPath ++ "/" ++ subPath
  if ¬ env.statDirOk resourcePath then
    (rc, [], .error ("the resource path (" ++ resourcePath ++ ") is not valid"))
  else
    match env.filesFor resourcePath svc.ns svc.name with
    | .error e =>
        (rc, [], .error ("finding resource definition file for " ++ svc.canonical ++ ": " ++ e))
    | .ok [] =>
        (rc, [], .ok ("no resource definition file found for " ++ svc.canonical ++ "; skipping"))
    | .ok [f] =>
        (match env.readFile f with
         | .error e => (rc, [], .error e)
         | .ok d0 =>
           match env.statFile f with
           | some e => (rc, [], .error e)
           | none =>
             match foldRewrites env d0 regrades with
             | .error e => (rc, [], .error e)
             | .ok d =>
               match env.writeFileRes f d with
               | some e => (rc, [.fileWrite f], .error e)
               | none =>
                   ({ rc with podControllers := mapInsert rc.podControllers svc d },
                    [.fileWrite f], .ok "Update pod controller OK."))
    | .ok files =>
        (rc, [], .error ("multiple resource definition files found for " ++ svc.canonical
          ++ ": " ++ String.intercalate ", " files))

/-- Body of the `releaseActionCommitAndPush` closure
(`releaser.go:704-728`). -/
def commitAndPushDo (env : Env) (msg : String) (rc : ReleaseContext) :
    ReleaseContext × List Effect × Except String String :=
  if ¬ env.statDirOk rc.repoPath then
    (rc, [], .error ("the repo path (" ++ rc.repoPath ++ ") is not valid"))
  else
    match env.statKeyErr rc.repoKey with
    | some e => (rc, [], .error ("the repo key (" ++ rc.repoKey ++ ") is not valid: " ++ e))
    | none =>
      let (result, errOpt) := env.commitPush rc.repoPath rc.repoKey msg
      match errOpt with
      | some e => (rc, [.repoCommitPush msg], .error e)
      | none =>
          (rc, [.repoCommitPush msg],
           if result = "" then .ok ("Pushed commit: " ++ msg) else .ok result)

/-- First loop of the `releaseActionRegradeServices` closure
(`releaser.go:750-770`): per-service, either record the
no-pod-controller error or extend the batch and log the starting
event. -/
def regradeStep (rc : ReleaseContext) (cause : String)
    (acc : List (ServiceID × String) × List RegradeSpec × List Effect)
    (svc : ServiceID) : List (ServiceID × String) × List RegradeSpec × List Effect :=
  match List.lookup svc rc.podControllers with
  | none =>
      (mapInsert acc.1 svc "no pod controller in release context; skipping regrade",
       acc.2.1, acc.2.2)
  | some d =>
      (acc.1, acc.2.1 ++ [⟨⟨svc.ns, svc.name⟩, d⟩],
       acc.2.2 ++ [.historyEvent svc.ns svc.name ("Starting regrade " ++ cause)])

def regradeCollect (rc : ReleaseContext) (cause : String) (services : List ServiceID) :
    List (ServiceID × String) × List RegradeSpec × List Effect :=
  services.foldl (regradeStep rc cause) ([], [], [])

/-- The error-splatting loop (`releaser.go:775-780`): every entry of the
`RegradeError` keyed into the result map through `ParseServiceID` (whose
error the source discards; the fallback is the zero service ID). -/
def distributeStep (acc : List (ServiceID × String))
    (p : NamespacedService × String) : List (ServiceID × String) :=
  match parseServiceID (p.1.ns ++ "/" ++ p.1.svc) with
  | .ok sid => mapInsert acc sid p.2
  | .error _ => mapInsert acc ⟨"", ""⟩ p.2

def distributeRegradeError (results : List (ServiceID × String)) (rerr : RegradeError) :
    List (ServiceID × String) :=
  rerr.foldl distributeStep results

/-- The reporting loop (`releaser.go:782-790`): a missing entry in the
result map means success. -/
def regradeFinalEvents (cause : String) (results : List (ServiceID × String))
    (services : List ServiceID) : List Effect :=
  services.map
    (fun svc =>
      match List.lookup svc results with
      | none => .historyEvent svc.ns svc.name ("Regrade " ++ cause ++ ": done")
      | some e => .historyEvent svc.ns svc.name ("Regrade " ++ cause ++ ": failed: " ++ e))

/-- Body of the `releaseActionRegradeServices` closure
(`releaser.go:738-795`). -/
def regradeServicesDo (env : Env) (services : List ServiceID) (cause : String)
    (rc : ReleaseContext) : ReleaseContext × List Effect × Except String String :=
  let c := regradeCollect rc cause services
  let specs := c.2.1
  let tx := env.regrade specs
  let results :=
    match tx with
    | none => c.1
    | some rerr => distributeRegradeError c.1 rerr
  let effects := c.2.2 ++ [.platformRegrade specs] ++ regradeFinalEvents cause results services
  match tx with
  | none => (rc, effects, .ok "")
  | some rerr => (rc, effects, .error rerr.message)

/-- The interpreter of action closures: one branch per `Do` body of
`src/release/releaser.go` (the `printf` closure only returns `("",
nil)`). -/
def doAction (env : Env) (subPath : String) (a : ActionSpec) (rc : ReleaseContext) :
    ReleaseContext × List Effect × Except String String :=
  match a with
  | .printf _ => (rc, [], .ok "")
  | .clone => cloneDo env rc
  | .findPodController svc => findPodControllerDo env subPath svc rc
  | .updatePodController svc rs => updatePodControllerDo env subPath svc rs rc
  | .commitAndPush msg => commitAndPushDo env msg rc
  | .regradeServices svcs cause => regradeServicesDo env svcs cause rc

/-- One call of the job updater: the status and log the callback
observed (`updater.UpdateJob(*job)` receives a copy of the job). -/
structure JobUpdate where
  status : String
  log : List String
deriving DecidableEq, Repr

/-- The engine-visible mutable state during one `Release`: the job's
status and log, the snapshots passed to the updater, and the external
effect trace. -/
structure RunState where
  status : String
  log : List String
  updates : List JobUpdate
  effects : List Effect
deriving DecidableEq, Repr

/-- The `updateJob` closure (`releaser.go:68-73`): format the line, set
`job.Status`, append to `job.Log`, then hand the job to the updater. -/
def updateJob (s : RunState) (msg : String) : RunState :=
  { s with status := msg, log := s.log ++ [msg],
           updates := s.updates ++ [⟨msg, s.log ++ [msg]⟩] }

/-- Append externally observable effects to the trace. -/
def addEffects (s : RunState) (es : List Effect) : RunState :=
  { s with effects := s.effects ++ es }

/-- Outcome of `releaser.execute`: the (result-filled) actions, the
final state, the first error if any, and the specs of the closures that
actually ran. -/
structure ExecResult where
  actions : List ReleaseAction
  state : RunState
  err : Option String
  executed : List ActionSpec
deriving DecidableEq, Repr

/-- `releaser.execute` (`releaser.go:518-545`): walk the actions in
order, update the job with each description, and — only for
`ReleaseKindExecute` — run the closure, recording `Failed: <err>` and
stopping at the first error, else recording the result (and updating
the job with it when non-empty). -/
def executeGo (env : Env) (subPath : String) (kind : ReleaseKind) :
    List ReleaseAction → ReleaseContext → RunState → ExecResult
  | [], _, s => ⟨[], s, none, []⟩
  | a :: rest, rc, s =>
    let s1 := updateJob s a.spec.description
    match kind with
    | .plan =>
      let r := executeGo env subPath kind rest rc s1
      ⟨a :: r.actions, r.state, r.err, r.executed⟩
    | .execute =>
      match doAction env subPath a.spec rc with
      | (_, effs, .error e) =>
        ⟨{ a with result := "Failed: " ++ e } :: rest,
         updateJob (addEffects s1 effs) e, some e, [a.spec]⟩
      | (rc2, effs, .ok result) =>
        let s2 := addEffects s1 effs
        let s3 := if result = "" then s2 else updateJob s2 result
        let r := executeGo env subPath kind rest rc2 s3
        ⟨{ a with result := result } :: r.actions, r.state, r.err, a.spec :: r.executed⟩

/-- Modelled from the spec: `helper.GetAllServices(namespace)` — the
helper package is not under `src/`.  Its call signature carries no
exclude set, so it stands for `platform.AllServices` with the empty
ignore set (`src/platform/kubernetes/kubernetes.go:116` documents
`AllServices` as the services in the namespace and not in the given
ignore set). -/
def getAllServices (env : Env) (ns : String) :
    List Effect × Except String (List FService) :=
  ([.platformQueryServices], env.allServices ns [])

/-- Modelled from the spec: `helper.GetAllServicesExcept(namespace,
ignore)` — `platform.AllServices` with the given ignore set. -/
def getAllServicesExcept (env : Env) (ns : String) (ignore : List ServiceID) :
    List Effect × Except String (List FService) :=
  ([.platformQueryServices], env.allServices ns ignore)

/-- Modelled from the spec: `helper.GetServices(ids)` — the platform
query for the named services. -/
def getServices (env : Env) (ids : List ServiceID) :
    List Effect × Except String (List FService) :=
  ([.platformQueryServices], env.someServices ids)

/-- The containers of a service, or none when the platform reported an
error for them. -/
def containersOrNil (s : FService) : List Container :=
  match s.containersOrError with
  | .ok cs => cs
  | .error _ => []

/-- The distinct repositories of the images running in the given
services. -/
def serviceRepos (services : List FService) : List String :=
  ((services.map
      (fun s => (containersOrNil s).map (fun c => (parseImageID c.image).repository))).flatten).dedup

/-- One registry fetch of the collection loop below: skipped once an
earlier fetch failed. -/
def collectStep (env : Env) (acc : List Effect × Except String ImageMap)
    (repo : String) : List Effect × Except String ImageMap :=
  match acc.2 with
  | .error _ => acc
  | .ok m =>
    match env.registry repo with
    | .error e => (acc.1 ++ [.registryFetch repo], .error e)
    | .ok imgs => (acc.1 ++ [.registryFetch repo], .ok (m ++ [(repo, imgs)]))

/-- Modelled from the spec: `helper.CollectAvailableImages(services)` —
for every distinct repository among the services' container images, ask
the registry for its images (spec §4.1 step 3a); the first registry
failure aborts the collection. -/
def collectAvailableImages (env : Env) (services : List FService) :
    List Effect × Except String ImageMap :=
  (serviceRepos services).foldl (collectStep env) ([], .ok [])

/-- `regradeMap[service] = append(regradeMap[service], r)` on the
association-list model of the Go map (insertion order stands for the
unspecified Go map iteration order). -/
def regradeMapAdd (m : List (ServiceID × List ContainerRegrade)) (k : ServiceID)
    (r : ContainerRegrade) : List (ServiceID × List ContainerRegrade) :=
  match List.lookup k m with
  | none => m ++ [(k, [r])]
  | some rs => m.map (fun p => if p.1 = k then (k, rs ++ [r]) else p)

/-- The per-container loop of `releaseAllToLatest`
(`releaser.go:169-186`): skip-with-log when the image is already the
latest of its repository, else record a regrade; a registry-map miss is
fatal. -/
def latestLoopContainers (imap : ImageMap) (sid : ServiceID)
    (acc : List ReleaseAction × List (ServiceID × List ContainerRegrade)) :
    List Container →
      Except String (List ReleaseAction × List (ServiceID × List ContainerRegrade))
  | [] => .ok acc
  | c :: cs =>
    let currentImageID := parseImageID c.image
    match imap.latestImage currentImageID.repository with
    | .error e =>
        .error ("getting latest image from " ++ currentImageID.repository ++ ": " ++ e)
    | .ok latest =>
      if currentImageID = latest.id then
        latestLoopContainers imap sid
          (acc.1 ++ [mkAction (.printf ("Service image " ++ currentImageID.ref
              ++ " is already the latest one; skipping."))], acc.2) cs
      else
        latestLoopContainers imap sid
          (acc.1, regradeMapAdd acc.2 sid ⟨c.name, currentImageID, latest.id⟩) cs

/-- The per-service loop of `releaseAllToLatest`
(`releaser.go:163-187`): a service without readable containers gets a
log line and is skipped. -/
def latestLoopServices (imap : ImageMap)
    (acc : List ReleaseAction × List (ServiceID × List ContainerRegrade)) :
    List FService →
      Except String (List ReleaseAction × List (ServiceID × List ContainerRegrade))
  | [] => .ok acc
  | s :: ss =>
    match s.containersOrError with
    | .error e =>
        latestLoopServices imap
          (acc.1 ++ [mkAction (.printf ("service " ++ s.id.canonical
              ++ " does not have images associated: " ++ e))], acc.2) ss
    | .ok cs =>
      match latestLoopContainers imap s.id acc cs with
      | .error e => .error e
      | .ok acc2 => latestLoopServices imap acc2 ss

/-- The container loop of `releaseOneToLatest` (`releaser.go:339-356`):
as `latestLoopContainers`, but the regrades of the one service collect
into a plain list. -/
def latestLoopOne (imap : ImageMap)
    (acc : List ReleaseAction × List ContainerRegrade) :
    List Container → Except String (List ReleaseAction × List ContainerRegrade)
  | [] => .ok acc
  | c :: cs =>
    let currentImageID := parseImageID c.image
    match imap.latestImage currentImageID.repository with
    | .error e =>
        .error ("getting latest image from " ++ currentImageID.repository ++ ": " ++ e)
    | .ok latest =>
      if currentImageID = latest.id then
        latestLoopOne imap
          (acc.1 ++ [mkAction (.printf ("Service image " ++ currentImageID.ref
              ++ " is already the latest one; skipping."))], acc.2) cs
      else
        latestLoopOne imap (acc.1, acc.2 ++ [⟨c.name, currentImageID, latest.id⟩]) cs

/-- The per-container loop of `releaseAllForImage`
(`releaser.go:250-264`): other repositories are passed over silently, an
exact match gets a log line, the rest get regrades to the target. -/
def imageLoopContainers (target : ImageID) (sid : ServiceID)
    (acc : List ReleaseAction × List (ServiceID × List ContainerRegrade)) :
    List Container → List ReleaseAction × List (ServiceID × List ContainerRegrade)
  | [] => acc
  | c :: cs =>
    let candidate := parseImageID c.image
    if candidate.repository ≠ target.repository then
      imageLoopContainers target sid acc cs
    else if candidate = target then
      imageLoopContainers target sid
        (acc.1 ++ [mkAction (.printf ("Service " ++ sid.canonical ++ " image "
            ++ candidate.ref ++ " matches the target image exactly. Skipping."))], acc.2) cs
    else
      imageLoopContainers target sid
        (acc.1, regradeMapAdd acc.2 sid ⟨c.name, candidate, target⟩) cs

/-- The per-service loop of `releaseAllForImage`
(`releaser.go:244-265`). -/
def imageLoopServices (target : ImageID)
    (acc : List ReleaseAction × List (ServiceID × List ContainerRegrade)) :
    List FService → List ReleaseAction × List (ServiceID × List ContainerRegrade)
  | [] => acc
  | s :: ss =>
    match s.containersOrError with
    | .error e =>
        imageLoopServices target
          (acc.1 ++ [mkAction (.printf ("service " ++ s.id.canonical
              ++ " does not have images associated: " ++ e))], acc.2) ss
    | .ok cs => imageLoopServices target (imageLoopContainers target s.id acc cs) ss

/-- The container loop of `releaseOne` (`releaser.go:418-432`): as
`imageLoopContainers` with a plain regrade list. -/
def imageLoopOne (target : ImageID) (sid : ServiceID)
    (acc : List ReleaseAction × List ContainerRegrade) :
    List Container → List ReleaseAction × List ContainerRegrade
  | [] => acc
  | c :: cs =>
    let candidate := parseImageID c.image
    if candidate.repository ≠ target.repository then
      imageLoopOne target sid acc cs
    else if candidate = target then
      imageLoopOne target sid
        (acc.1 ++ [mkAction (.printf ("Service " ++ sid.canonical ++ " image "
            ++ candidate.ref ++ " matches the target image exactly. Skipping."))], acc.2) cs
    else
      imageLoopOne target sid (acc.1, acc.2 ++ [⟨c.name, candidate, target⟩]) cs

/-- `releaser.releaseAllToLatest` (`releaser.go:129-212`): the planning
part — the deferred `execute` is applied by `releaserRelease` below
exactly when planning succeeds, as the source's `defer` does.  NOTE:
faithful to the source, the `exclude` argument is accepted and never
used — the candidate query is `GetAllServices`, not
`GetAllServicesExcept`. -/
def releaseAllToLatest (env : Env) (_exclude : List ServiceID) :
    List Effect × Except String (List ReleaseAction) :=
  let res0 := [mkAction (.printf "I'm going to release all services to their latest images.")]
  let q := getAllServices env ""
  match q.2 with
  | .error e => (q.1, .error ("fetching all platform services: " ++ e))
  | .ok services =>
    let coll := collectAvailableImages env services
    match coll.2 with
    | .error e =>
        (q.1 ++ coll.1, .error ("collecting available images to calculate regrades: " ++ e))
    | .ok imap =>
      match latestLoopServices imap ([], []) services with
      | .error e => (q.1 ++ coll.1, .error e)
      | .ok (infos, rmap) =>
        if rmap.isEmpty then
          (q.1 ++ coll.1, .ok (res0 ++ infos
            ++ [mkAction (.printf "All services are running the latest images. Nothing to do.")]))
        else
          (q.1 ++ coll.1, .ok (res0 ++ infos
            ++ [mkAction .clone]
            ++ rmap.map (fun p => mkAction (.updatePodController p.1 p.2))
            ++ [mkAction (.commitAndPush "Release latest images to all services"),
                mkAction (.regradeServices (rmap.map Prod.fst)
                  "latest images (to all services)")]))

/-- `releaser.releaseAllForImage` (`releaser.go:214-290`): planning
part. -/
def releaseAllForImage (env : Env) (target : ImageID) (exclude : List ServiceID) :
    List Effect × Except String (List ReleaseAction) :=
  let res0 := [mkAction (.printf ("I'm going to release image " ++ target.ref
      ++ " to all services that would use it."))]
  let q := getAllServicesExcept env "" exclude
  match q.2 with
  | .error e => (q.1, .error ("fetching all platform services: " ++ e))
  | .ok services =>
    let (infos, rmap) := imageLoopServices target ([], []) services
    if rmap.isEmpty then
      (q.1, .ok (res0 ++ infos ++ [mkAction (.printf ("All matching services are already running image "
          ++ target.ref ++ ". Nothing to do."))]))
    else
      (q.1, .ok (res0 ++ infos
        ++ [mkAction .clone]
        ++ rmap.map (fun p => mkAction (.updatePodController p.1 p.2))
        ++ [mkAction (.commitAndPush ("Release " ++ target.ref ++ " to all services")),
            mkAction (.regradeServices (rmap.map Prod.fst)
              (target.ref ++ " (to all services)"))]))

/-- `releaser.releaseOneToLatest` (`releaser.go:292-375`): planning
part. -/
def releaseOneToLatest (env : Env) (serviceID : ServiceID) (exclude : List ServiceID) :
    List Effect × Except String (List ReleaseAction) :=
  let res0 := [mkAction (.printf ("I'm going to release the latest images(s) for service "
      ++ serviceID.canonical ++ "."))]
  if containsServiceID exclude serviceID then
    ([], .ok (res0 ++ [mkAction (.printf ("Specified service " ++ serviceID.canonical
        ++ " is excluded; ignoring."))]))
  else
    let q := getServices env [serviceID]
    match q.2 with
    | .error e =>
        (q.1, .error ("fetching service " ++ serviceID.canonical ++ " from platform: " ++ e))
    | .ok [service] =>
      (match service.containersOrError with
       | .error e =>
           (q.1, .error ("service " ++ serviceID.canonical ++ " has no associated images: " ++ e))
       | .ok containers =>
         let coll := collectAvailableImages env [service]
         match coll.2 with
         | .error e =>
             (q.1 ++ coll.1, .error ("fetching images for service " ++ serviceID.canonical
               ++ ": " ++ e))
         | .ok imap =>
           match latestLoopOne imap ([], []) containers with
           | .error e => (q.1 ++ coll.1, .error e)
           | .ok (infos, regrades) =>
             if regrades.isEmpty then
               (q.1 ++ coll.1, .ok (res0 ++ infos ++ [mkAction (.printf
                 "The service is already running the latest version of all its images. Nothing to do.")]))
             else
               (q.1 ++ coll.1, .ok (res0 ++ infos
                 ++ [mkAction .clone,
                     mkAction (.updatePodController serviceID regrades),
                     mkAction (.commitAndPush ("Release latest images to " ++ serviceID.canonical)),
                     mkAction (.regradeServices [serviceID] "latest images")])))
    | .ok services =>
        (q.1, .error ("expected exactly 1 service, found " ++ toString services.length))

/-- `releaser.releaseOne` (`releaser.go:377-448`): planning part. -/
def releaseOne (env : Env) (serviceID : ServiceID) (target : ImageID)
    (exclude : List ServiceID) : List Effect × Except String (List ReleaseAction) :=
  let res0 := [mkAction (.printf ("I'm going to release image " ++ target.ref
      ++ " to service " ++ serviceID.canonical ++ "."))]
  if containsServiceID exclude serviceID then
    ([], .ok (res0 ++ [mkAction (.printf ("Specified service " ++ serviceID.canonical
        ++ " is excluded; ignoring."))]))
  else
    let q := getServices env [serviceID]
    match q.2 with
    | .error e =>
        (q.1, .error ("fetching service " ++ serviceID.canonical ++ " from platform: " ++ e))
    | .ok [service] =>
      (match service.containersOrError with
       | .error e =>
           (q.1, .error ("service " ++ serviceID.canonical ++ " has no associated images: " ++ e))
       | .ok containers =>
         let (infos, regrades) := imageLoopOne target service.id ([], []) containers
         if regrades.isEmpty then
           (q.1, .ok (res0 ++ infos ++ [mkAction (.printf ("All matching services are already running image "
               ++ target.ref ++ ". Nothing to do."))]))
         else
           (q.1, .ok (res0 ++ infos
             ++ [mkAction .clone,
                 mkAction (.updatePodController serviceID regrades),
                 mkAction (.commitAndPush ("Release " ++ target.ref ++ " to "
                   ++ serviceID.canonical)),
                 mkAction (.regradeServices [serviceID] target.ref)])))
    | .ok services =>
        (q.1, .error ("expected exactly 1 service, found " ++ toString services.length))

/-- `releaser.releaseOneWithoutUpdate` (`releaser.go:451-478`): planning
part. -/
def releaseOneWithoutUpdate (env : Env) (serviceID : ServiceID)
    (exclude : List ServiceID) : List Effect × Except String (List ReleaseAction) :=
  let _ := env
  if containsServiceID exclude serviceID then
    ([], .ok [mkAction (.printf ("Specified service " ++ serviceID.canonical
        ++ " is excluded; ignoring."))])
  else
    ([], .ok [mkAction (.printf ("I'm going to release service " ++ serviceID.canonical
        ++ " using the config from the git repo, without updating it")),
      mkAction .clone,
      mkAction (.findPodController serviceID),
      mkAction (.regradeServices [serviceID] "without update")])

/-- `releaser.releaseAllWithoutUpdate` (`releaser.go:481-516`): planning
part. -/
def releaseAllWithoutUpdate (env : Env) (exclude : List ServiceID) :
    List Effect × Except String (List ReleaseAction) :=
  let q := getAllServicesExcept env "" exclude
  match q.2 with
  | .error e => (q.1, .error ("fetching all platform services: " ++ e))
  | .ok services =>
    (q.1, .ok ([mkAction (.printf "I'm going to release all services using the config from the git repo, without updating it."),
        mkAction .clone]
      ++ services.map (fun s => mkAction (.findPodController s.id))
      ++ [mkAction (.regradeServices (services.map (fun s => s.id))
           "without update (all services)")]))

/-- The dispatch switch of `releaser.Release` (`releaser.go:88-126`):
which planner runs for which `(ServiceSpec, ImageSpec)` pair, with the
service-selector parse errors wrapped as in the source. -/
def dispatchPlan (env : Env) (spec : ReleaseJobSpec) :
    List Effect × Except String (List ReleaseAction) :=
  match spec.serviceSpec, spec.imageSpec with
  | .all, .latest => releaseAllToLatest env spec.excludes
  | .all, .noChange => releaseAllWithoutUpdate env spec.excludes
  | .all, .image s => releaseAllForImage env (parseImageID s) spec.excludes
  | .one sel, .latest =>
    (match parseServiceID sel with
     | .error e => ([], .error ("parsing service ID from spec " ++ sel ++ ": " ++ e))
     | .ok sid => releaseOneToLatest env sid spec.excludes)
  | .one sel, .noChange =>
    (match parseServiceID sel with
     | .error e => ([], .error ("parsing service ID from spec " ++ sel ++ ": " ++ e))
     | .ok sid => releaseOneWithoutUpdate env sid spec.excludes)
  | .one sel, .image s =>
    (match parseServiceID sel with
     | .error e => ([], .error ("parsing service ID from spec " ++ sel ++ ": " ++ e))
     | .ok sid => releaseOne env sid (parseImageID s) spec.excludes)

/-- `maxSimultaneousReleases` (`releaser.go:32`). -/
def maxSimultaneousReleases : Nat := 1

/-- Outcome of one whole `Release` call. -/
structure ReleaseResult where
  state : RunState
  err : Option String
  actions : List ReleaseAction
  executed : List ActionSpec
deriving DecidableEq, Repr

/-- `releaser.Release` (`releaser.go:58-127`): the non-blocking
semaphore try-acquire (`semFull` says whether the single slot is
already held), the `Calculating release actions.` progress line, the
planner dispatch, and — through each planner's `defer` — the executor
on planning success. -/
def releaserRelease (env : Env) (subPath : String) (semFull : Bool)
    (spec : ReleaseJobSpec) (s : RunState) : ReleaseResult :=
  if semFull then
    ⟨s, some "a release is already in progress; please try again later", [], []⟩
  else
    let s1 := updateJob s "Calculating release actions."
    let plan := dispatchPlan env spec
    match plan.2 with
    | .error e => ⟨addEffects s1 plan.1, some e, [], []⟩
    | .ok actions =>
      let r := executeGo env subPath spec.kind actions newReleaseContext (addEffects s1 plan.1)
      ⟨r.state, r.err, r.actions, r.executed⟩

/-- The states the engine's single-slot semaphore channel can reach: it
starts empty; `Release` adds a token only after seeing strictly fewer
than `maxSimultaneousReleases` (`releaser.go:78-84`), and removes one on
the way out. -/
inductive SemReach : Nat → Prop where
  | init : SemReach 0
  | acquire {n : Nat} : SemReach n → n < maxSimultaneousReleases → SemReach (n + 1)
  | release {n : Nat} : SemReach (n + 1) → SemReach n

/-! ### Basic state lemmas -/

theorem updateJob_effects (s : RunState) (m : String) :
    (updateJob s m).effects = s.effects := rfl

theorem updateJob_updates (s : RunState) (m : String) :
    (updateJob s m).updates = s.updates ++ [⟨m, s.log ++ [m]⟩] := rfl

theorem addEffects_updates (s : RunState) (es : List Effect) :
    (addEffects s es).updates = s.updates := rfl

theorem addEffects_effects (s : RunState) (es : List Effect) :
    (addEffects s es).effects = s.effects ++ es := rfl

/-- Invariant behind C10: every snapshot the updater has seen so far has
its status equal to the last line of its log. -/
def GoodUpdates (s : RunState) : Prop :=
  ∀ u ∈ s.updates, u.log.getLast? = some u.status

theorem goodUpdates_updateJob {s : RunState} {m : String} (h : GoodUpdates s) :
    GoodUpdates (updateJob s m) := by
  intro u hu
  rw [updateJob_updates, List.mem_append] at hu
  rcases hu with hu | hu
  · exact h u hu
  · rcases List.mem_singleton.mp hu with rfl
    simp [List.getLast?_concat]

theorem goodUpdates_addEffects {s : RunState} {es : List Effect} (h : GoodUpdates s) :
    GoodUpdates (addEffects s es) := h

theorem goodUpdates_executeGo (env : Env) (subPath : String) (kind : ReleaseKind)
    (actions : List ReleaseAction) :
    ∀ (rc : ReleaseContext) (s : RunState), GoodUpdates s →
      GoodUpdates (executeGo env subPath kind actions rc s).state := by
  induction actions with
  | nil => intro rc s h; simpa [executeGo] using h
  | cons a rest ih =>
    intro rc s h
    cases kind with
    | plan =>
      simpa [executeGo] using ih rc (updateJob s a.spec.description) (goodUpdates_updateJob h)
    | execute =>
      rcases hda : doAction env subPath a.spec rc with ⟨rc2, effs, res⟩
      cases res with
      | error e =>
        simp [executeGo, hda]
        exact goodUpdates_updateJob (goodUpdates_addEffects (goodUpdates_updateJob h))
      | ok result =>
        simp only [executeGo, hda]
        by_cases hr : result = ""
        · simpa [hr] using
            ih rc2 _ (goodUpdates_addEffects (goodUpdates_updateJob h))
        · simpa [hr] using
            ih rc2 _ (goodUpdates_updateJob (goodUpdates_addEffects (goodUpdates_updateJob h)))

theorem goodUpdates_releaserRelease (env : Env) (subPath : String) (semFull : Bool)
    (spec : ReleaseJobSpec) (s : RunState) (h : GoodUpdates s) :
    GoodUpdates (releaserRelease env subPath semFull spec s).state := by
  unfold releaserRelease
  by_cases hs : semFull
  · simpa [hs] using h
  · simp only [hs, if_false, Bool.false_eq_true]
    rcases hp : (dispatchPlan env spec).2 with e | actions
    · simpa [hp] using goodUpdates_addEffects (goodUpdates_updateJob h)
    · simpa [hp] using
        goodUpdates_executeGo env subPath spec.kind actions newReleaseContext _
          (goodUpdates_addEffects (goodUpdates_updateJob h))

/-- C10: every progress update the engine makes during `Release` sets
`job.Status` to the formatted line and appends the same string to
`job.Log` before invoking the updater, so at every update-callback call
the snapshot's status equals the last element of its log
(`releaser.go:68-73`). -/
theorem releaseStatusMatchesLogTail (env : Env) (subPath : String) (semFull : Bool)
    (spec : ReleaseJobSpec) (s : RunState) (h : s.updates = []) :
    ∀ u ∈ (releaserRelease env subPath semFull spec s).state.updates,
      u.log.getLast? = some u.status := by
  refine goodUpdates_releaserRelease env subPath semFull spec s ?_
  intro u hu
  rw [h] at hu
  cases hu

def emptyRun : RunState := ⟨"", [], [], []⟩

def failEnv : Env :=
  ⟨fun _ _ => .error "platform down",
   fun _ => .error "platform down",
   fun _ => .error "registry down",
   .error "git down",
   fun _ => false,
   fun _ _ _ => .error "fs down",
   fun _ => .error "fs down",
   fun _ => some "fs down",
   fun _ _ => .error "rewrite failed",
   fun _ _ => some "fs down",
   fun _ => some "fs down",
   fun _ _ _ => ("", some "git down"),
   fun _ => some [(⟨"default", "web"⟩, "regrade failed")]⟩

theorem releaseStatusMatchesLogTail_witness :
    ((⟨"", [], [], []⟩ : RunState).updates = []) ∧
    ∀ u ∈ (releaserRelease failEnv "deploy" false ⟨.all, .latest, .plan, []⟩
        ⟨"", [], [], []⟩).state.updates,
      u.log.getLast? = some u.status :=
  ⟨rfl, releaseStatusMatchesLogTail failEnv "deploy" false ⟨.all, .latest, .plan, []⟩
      ⟨"", [], [], []⟩ rfl⟩

/-- C1: the semaphore channel of capacity `maxSimultaneousReleases = 1`
never holds more than one token (so at most one `Release` is past the
try-acquire at any instant), and a `Release` entered while the slot is
held returns exactly the error `a release is already in progress;
please try again later` with the job state untouched, no effect
recorded, no action planned and no closure executed
(`releaser.go:78-84`). -/
theorem releaseSemaphoreConflict :
    (∀ n, SemReach n → n ≤ maxSimultaneousReleases) ∧
    ∀ (env : Env) (subPath : String) (spec : ReleaseJobSpec) (s : RunState),
      releaserRelease env subPath true spec s =
        ⟨s, some "a release is already in progress; please try again later", [], []⟩ := by
  constructor
  · intro n h
    induction h with
    | init => simp [maxSimultaneousReleases]
    | acquire _ hlt _ =>
        simp only [maxSimultaneousReleases] at hlt ⊢
        omega
    | release _ ih =>
        simp only [maxSimultaneousReleases] at ih ⊢
        omega
  · intro env subPath spec s
    rfl

theorem releaseSemaphoreConflict_witness :
    (1 ≤ maxSimultaneousReleases) ∧
    releaserRelease failEnv "deploy" true ⟨.all, .latest, .execute, []⟩ emptyRun =
      ⟨emptyRun, some "a release is already in progress; please try again later", [], []⟩ :=
  ⟨releaseSemaphoreConflict.1 1 (SemReach.acquire SemReach.init (by decide)),
   releaseSemaphoreConflict.2 failEnv "deploy" ⟨.all, .latest, .execute, []⟩ emptyRun⟩

theorem executeGo_plan (env : Env) (subPath : String) (actions : List ReleaseAction) :
    ∀ (rc : ReleaseContext) (s : RunState),
      (executeGo env subPath .plan actions rc s).executed = [] ∧
      (executeGo env subPath .plan actions rc s).state.effects = s.effects ∧
      (executeGo env subPath .plan actions rc s).err = none ∧
      (executeGo env subPath .plan actions rc s).actions = actions := by
  induction actions with
  | nil => intro rc s; simp [executeGo]
  | cons a rest ih =>
    intro rc s
    simpa [executeGo, updateJob_effects] using ih rc (updateJob s a.spec.description)

/-- A trace that touches no external state: queries only. -/
def ReadOnlyEffects (es : List Effect) : Prop := ∀ e ∈ es, e.isWrite = false

theorem readOnly_nil : ReadOnlyEffects [] := by
  intro e he; cases he

theorem readOnly_query : ReadOnlyEffects [Effect.platformQueryServices] := by
  intro e he
  rcases List.mem_singleton.mp he with rfl
  rfl

theorem collectStep_readonly (env : Env) (acc : List Effect × Except String ImageMap)
    (repo : String) (h : ReadOnlyEffects acc.1) :
    ReadOnlyEffects (collectStep env acc repo).1 := by
  unfold collectStep
  split
  · exact h
  · split
    all_goals
      intro e he
      rcases List.mem_append.mp he with he | he
      · exact h e he
      · rcases List.mem_singleton.mp he with rfl
        rfl

theorem collect_foldl_readonly (env : Env) (repos : List String) :
    ∀ acc, ReadOnlyEffects acc.1 →
      ReadOnlyEffects ((repos.foldl (collectStep env) acc)).1 := by
  induction repos with
  | nil => intro acc h; exact h
  | cons r rs ih => intro acc h; exact ih _ (collectStep_readonly env acc r h)

theorem collectAvailableImages_readonly (env : Env) (services : List FService) :
    ReadOnlyEffects (collectAvailableImages env services).1 :=
  collect_foldl_readonly env _ _ readOnly_nil

theorem readOnly_query_append_collect (env : Env) (services : List FService) :
    ReadOnlyEffects ([Effect.platformQueryServices] ++ (collectAvailableImages env services).1) := by
  intro e he
  rcases List.mem_append.mp he with he | he
  · exact readOnly_query e he
  · exact collectAvailableImages_readonly env services e he

theorem releaseAllToLatest_readonly (env : Env) (ex : List ServiceID) :
    ReadOnlyEffects (releaseAllToLatest env ex).1 := by
  unfold releaseAllToLatest getAllServices
  dsimp only
  split
  · exact readOnly_query
  · split
    · exact readOnly_query_append_collect env _
    · split
      · exact readOnly_query_append_collect env _
      · split
        · exact readOnly_query_append_collect env _
        · exact readOnly_query_append_collect env _

theorem releaseAllForImage_readonly (env : Env) (target : ImageID) (ex : List ServiceID) :
    ReadOnlyEffects (releaseAllForImage env target ex).1 := by
  unfold releaseAllForImage getAllServicesExcept
  dsimp only
  split
  · exact readOnly_query
  · split
    · exact readOnly_query
    · exact readOnly_query

theorem releaseOneToLatest_readonly (env : Env) (sid : ServiceID) (ex : List ServiceID) :
    ReadOnlyEffects (releaseOneToLatest env sid ex).1 := by
  unfold releaseOneToLatest getServices
  dsimp only
  split
  · exact readOnly_nil
  · split
    · exact readOnly_query
    · split
      · exact readOnly_query
      · split
        · exact readOnly_query_append_collect env _
        · split
          · exact readOnly_query_append_collect env _
          · split
            · exact readOnly_query_append_collect env _
            · exact readOnly_query_append_collect env _
    · exact readOnly_query

theorem releaseOne_readonly (env : Env) (sid : ServiceID) (target : ImageID)
    (ex : List ServiceID) : ReadOnlyEffects (releaseOne env sid target ex).1 := by
  unfold releaseOne getServices
  dsimp only
  split
  · exact readOnly_nil
  · split
    · exact readOnly_query
    · split
      · exact readOnly_query
      · split
        · exact readOnly_query
        · exact readOnly_query
    · exact readOnly_query

theorem releaseOneWithoutUpdate_readonly (env : Env) (sid : ServiceID)
    (ex : List ServiceID) : ReadOnlyEffects (releaseOneWithoutUpdate env sid ex).1 := by
  unfold releaseOneWithoutUpdate
  split
  · exact readOnly_nil
  · exact readOnly_nil

theorem releaseAllWithoutUpdate_readonly (env : Env) (ex : List ServiceID) :
    ReadOnlyEffects (releaseAllWithoutUpdate env ex).1 := by
  unfold releaseAllWithoutUpdate getAllServicesExcept
  dsimp only
  split
  · exact readOnly_query
  · exact readOnly_query

theorem dispatchPlan_readonly (env : Env) (spec : ReleaseJobSpec) :
    ReadOnlyEffects (dispatchPlan env spec).1 := by
  unfold dispatchPlan
  rcases spec with ⟨ss, is, kind, ex⟩
  cases ss with
  | all =>
    cases is with
    | latest => exact releaseAllToLatest_readonly env ex
    | noChange => exact releaseAllWithoutUpdate_readonly env ex
    | image s => exact releaseAllForImage_readonly env _ ex
  | one sel =>
    cases is with
    | latest =>
      rcases h : parseServiceID sel with e | sid
      · simp only [h]; exact readOnly_nil
      · simp only [h]; exact releaseOneToLatest_readonly env sid ex
    | noChange =>
      rcases h : parseServiceID sel with e | sid
      · simp only [h]; exact readOnly_nil
      · simp only [h]; exact releaseOneWithoutUpdate_readonly env sid ex
    | image s =>
      rcases h : parseServiceID sel with e | sid
      · simp only [h]; exact readOnly_nil
      · simp only [h]; exact releaseOne_readonly env sid _ ex

theorem filter_write_append_readonly {l es : List Effect} (h : ReadOnlyEffects es) :
    (l ++ es).filter Effect.isWrite = l.filter Effect.isWrite := by
  rw [List.filter_append]
  have hnil : es.filter Effect.isWrite = [] := by
    rw [List.filter_eq_nil_iff]
    intro e he
    simp [h e he]
  rw [hnil, List.append_nil]

/-- C2: under release kind `Plan`, `Release` executes no action closure
(clone, update-pod-controller, commit-and-push, regrade-services all
included) and writes nothing to the repo or the platform — the effect
trace gains no write effect (`releaser.go:529`, guarding every `Do`
call on `ReleaseKindExecute`). -/
theorem releasePlanMakesNoWrites (env : Env) (subPath : String) (spec : ReleaseJobSpec)
    (s : RunState) (h : spec.kind = .plan) :
    (releaserRelease env subPath false spec s).executed = [] ∧
    (releaserRelease env subPath false spec s).state.effects.filter Effect.isWrite
      = s.effects.filter Effect.isWrite := by
  unfold releaserRelease
  dsimp only
  rcases hp : (dispatchPlan env spec).2 with e | actions
  · refine ⟨rfl, ?_⟩
    dsimp only [addEffects, updateJob]
    exact filter_write_append_readonly (dispatchPlan_readonly env spec)
  · rw [h]
    have hex := executeGo_plan env subPath actions newReleaseContext
      (addEffects (updateJob s "Calculating release actions.") (dispatchPlan env spec).1)
    refine ⟨hex.1, ?_⟩
    change List.filter Effect.isWrite
      (executeGo env subPath ReleaseKind.plan actions newReleaseContext
        (addEffects (updateJob s "Calculating release actions.")
          (dispatchPlan env spec).1)).state.effects
      = List.filter Effect.isWrite s.effects
    rw [hex.2.1]
    dsimp only [addEffects, updateJob]
    exact filter_write_append_readonly (dispatchPlan_readonly env spec)

def wh : ServiceID := ⟨"default", "helloworld"⟩

def whImageOld : String := "quay.io/weaveworks/helloworld:master-a000001"

def svcWh : FService := ⟨wh, .ok [⟨"helloworld", whImageOld⟩]⟩

/-- A healthy demonstration environment: one service `default/helloworld`
running an outdated image, a registry that knows a newer tag for its
repository, and collaborators that all succeed. -/
def demoEnv : Env :=
  ⟨fun _ ig => .ok (if ig.contains wh then [] else [svcWh]),
   fun ids => .ok (if ids.contains wh then [svcWh] else []),
   fun r => if r = "quay.io/weaveworks/helloworld" then
      .ok [⟨⟨"quay.io", "weaveworks/helloworld", "master-9a16ff9"⟩, 5⟩,
           ⟨⟨"quay.io", "weaveworks/helloworld", "master-a000001"⟩, 3⟩]
    else .error "unknown repo",
   .ok ("/tmp/checkout", "/tmp/keyfile"),
   fun _ => true,
   fun _ _ _ => .ok ["/tmp/checkout/deploy/helloworld.yaml"],
   fun _ => .ok "containers: old",
   fun _ => none,
   fun _ t => .ok ("containers: " ++ t),
   fun _ _ => none,
   fun _ => none,
   fun _ _ _ => ("", none),
   fun _ => none⟩

theorem releasePlanMakesNoWrites_witness :
    ((⟨.all, .latest, .plan, []⟩ : ReleaseJobSpec).kind = .plan) ∧
    ((releaserRelease demoEnv "deploy" false ⟨.all, .latest, .plan, []⟩ emptyRun).executed = [] ∧
     (releaserRelease demoEnv "deploy" false ⟨.all, .latest, .plan, []⟩ emptyRun).state.effects.filter
         Effect.isWrite
       = emptyRun.effects.filter Effect.isWrite) :=
  ⟨rfl, releasePlanMakesNoWrites demoEnv "deploy" ⟨.all, .latest, .plan, []⟩ emptyRun rfl⟩

/-- C3 fails on the code: `releaseAllToLatest` accepts the excludes set
but queries the platform through `GetAllServices` with no ignore set
(`releaser.go:147`), unlike its siblings that use
`GetAllServicesExcept`.  Concretely, with `default/helloworld` in the
job's excludes and an environment whose platform honours an ignore set
when given one, the excluded service still receives an
update-pod-controller action and the batched regrade, and under
`Execute` the platform regrade for it is actually performed. -/
theorem releaseAllToLatestIgnoresExcludes :
    ((releaserRelease demoEnv "deploy" false ⟨.all, .latest, .plan, [wh]⟩ emptyRun).actions.map
        ReleaseAction.spec
      = [.printf "I'm going to release all services to their latest images.",
         .clone,
         .updatePodController wh
           [⟨"helloworld", ⟨"quay.io", "weaveworks/helloworld", "master-a000001"⟩,
             ⟨"quay.io", "weaveworks/helloworld", "master-9a16ff9"⟩⟩],
         .commitAndPush "Release latest images to all services",
         .regradeServices [wh] "latest images (to all services)"]) ∧
    Effect.platformRegrade
        [⟨⟨"default", "helloworld"⟩,
          "containers: quay.io/weaveworks/helloworld:master-9a16ff9"⟩]
      ∈ (releaserRelease demoEnv "deploy" false
          ⟨.all, .latest, .execute, [wh]⟩ emptyRun).state.effects := by
  constructor
  · rfl
  · decide

/-- C7: `execute` runs the closures strictly in plan order; when every
closure succeeds all of them run, and on the first failing closure the
action's result becomes `Failed: <err>`, the update callback is invoked
with the error (it is the last update made), the error is returned, and
no later closure runs — exactly the first `i+1` actions execute
(`releaser.go:518-545`). -/
theorem executeAbortsOnFirstError (env : Env) (subPath : String)
    (actions : List ReleaseAction) :
    ∀ (rc : ReleaseContext) (s : RunState),
      ((executeGo env subPath .execute actions rc s).err = none →
        (executeGo env subPath .execute actions rc s).executed
          = actions.map ReleaseAction.spec) ∧
      ∀ e, (executeGo env subPath .execute actions rc s).err = some e →
        ∃ i, i < actions.length ∧
          (executeGo env subPath .execute actions rc s).executed
            = (actions.take (i + 1)).map ReleaseAction.spec ∧
          ((executeGo env subPath .execute actions rc s).actions[i]?).map ReleaseAction.result
            = some ("Failed: " ++ e) ∧
          ((executeGo env subPath .execute actions rc s).state.updates.getLast?).map
              JobUpdate.status = some e := by
  induction actions with
  | nil =>
    intro rc s
    constructor
    · intro _; simp [executeGo]
    · intro e he; simp [executeGo] at he
  | cons a rest ih =>
    intro rc s
    rcases hda : doAction env subPath a.spec rc with ⟨rc2, effs, res⟩
    cases res with
    | error e0 =>
      constructor
      · intro hnone
        simp [executeGo, hda] at hnone
      · intro e he
        simp only [executeGo, hda] at he ⊢
        have he' : e0 = e := by simpa using he
        subst he'
        refine ⟨0, by simp, by simp, by simp, ?_⟩
        simp [updateJob_updates, addEffects_updates]
    | ok result =>
      constructor
      · intro hnone
        simp only [executeGo, hda] at hnone ⊢
        by_cases hr : result = ""
        · simp only [hr, if_pos rfl] at hnone ⊢
          simpa using ((ih rc2 _).1 (by simpa using hnone))
        · simp only [if_neg hr] at hnone ⊢
          simpa using ((ih rc2 _).1 (by simpa using hnone))
      · intro e he
        simp only [executeGo, hda] at he ⊢
        by_cases hr : result = ""
        · simp only [hr, if_pos rfl] at he ⊢
          rcases (ih rc2 _).2 e (by simpa using he) with ⟨i, hlen, hexec, hres, hupd⟩
          refine ⟨i + 1, by simpa using Nat.succ_lt_succ hlen, ?_, ?_, ?_⟩
          · simpa [List.take_succ_cons] using hexec
          · simpa using hres
          · simpa using hupd
        · simp only [if_neg hr] at he ⊢
          rcases (ih rc2 _).2 e (by simpa using he) with ⟨i, hlen, hexec, hres, hupd⟩
          refine ⟨i + 1, by simpa using Nat.succ_lt_succ hlen, ?_, ?_, ?_⟩
          · simpa [List.take_succ_cons] using hexec
          · simpa using hres
          · simpa using hupd

theorem executeAbortsOnFirstError_witness :
    (executeGo failEnv "deploy" .execute [mkAction .clone, mkAction (.printf "x")]
        newReleaseContext emptyRun).err = some "clone the config repo: git down" ∧
    ∃ i, i < ([mkAction .clone, mkAction (.printf "x")] : List ReleaseAction).length ∧
      (executeGo failEnv "deploy" .execute [mkAction .clone, mkAction (.printf "x")]
          newReleaseContext emptyRun).executed
        = (([mkAction .clone, mkAction (.printf "x")] : List ReleaseAction).take (i + 1)).map
            ReleaseAction.spec ∧
      ((executeGo failEnv "deploy" .execute [mkAction .clone, mkAction (.printf "x")]
          newReleaseContext emptyRun).actions[i]?).map ReleaseAction.result
        = some ("Failed: " ++ "clone the config repo: git down") ∧
      ((executeGo failEnv "deploy" .execute [mkAction .clone, mkAction (.printf "x")]
          newReleaseContext emptyRun).state.updates.getLast?).map JobUpdate.status
        = some "clone the config repo: git down" :=
  ⟨rfl,
   (executeAbortsOnFirstError failEnv "deploy" [mkAction .clone, mkAction (.printf "x")]
       newReleaseContext emptyRun).2 "clone the config repo: git down" rfl⟩

theorem releaserRelease_dispatch_error (env : Env) (subPath : String)
    (spec : ReleaseJobSpec) (s : RunState) (e : String) (effs : List Effect)
    (h : dispatchPlan env spec = (effs, .error e)) :
    releaserRelease env subPath false spec s =
      ⟨addEffects (updateJob s "Calculating release actions.") effs, some e, [], []⟩ := by
  unfold releaserRelease
  simp [h]

theorem releaseAllToLatest_allServices_error (env : Env) (ex : List ServiceID)
    (e : String) (h : env.allServices "" [] = .error e) :
    releaseAllToLatest env ex =
      ([.platformQueryServices], .error ("fetching all platform services: " ++ e)) := by
  unfold releaseAllToLatest getAllServices
  simp [h]

theorem releaseAllToLatest_collect_error (env : Env) (ex : List ServiceID)
    (services : List FService) (e : String)
    (h1 : env.allServices "" [] = .ok services)
    (h2 : (collectAvailableImages env services).2 = .error e) :
    releaseAllToLatest env ex =
      ([Effect.platformQueryServices] ++ (collectAvailableImages env services).1,
       .error ("collecting available images to calculate regrades: " ++ e)) := by
  unfold releaseAllToLatest getAllServices
  simp [h1, h2]

theorem releaseOneToLatest_platform_error (env : Env) (sid : ServiceID)
    (ex : List ServiceID) (e : String)
    (hx : containsServiceID ex sid = false)
    (h : env.someServices [sid] = .error e) :
    releaseOneToLatest env sid ex =
      ([.platformQueryServices],
       .error ("fetching service " ++ sid.canonical ++ " from platform: " ++ e)) := by
  unfold releaseOneToLatest getServices
  simp [hx, h]

/-- C9: planner-phase errors are fatal and never silently discarded:
the platform listing failure and the registry lookup failure each make
`Release` return the wrapped error with no planned action, no executed
closure, and an effect trace holding only the read queries made so far
— so no file was mutated (`releaser.go:147-150`, `157-160`,
`315-318`). -/
theorem plannerErrorsAbortRelease (env : Env) (subPath : String) (kind : ReleaseKind)
    (ex : List ServiceID) (s : RunState) :
    (∀ e, env.allServices "" [] = .error e →
      releaserRelease env subPath false ⟨.all, .latest, kind, ex⟩ s =
        ⟨addEffects (updateJob s "Calculating release actions.") [.platformQueryServices],
         some ("fetching all platform services: " ++ e), [], []⟩) ∧
    (∀ services e, env.allServices "" [] = .ok services →
      (collectAvailableImages env services).2 = .error e →
      releaserRelease env subPath false ⟨.all, .latest, kind, ex⟩ s =
        ⟨addEffects (updateJob s "Calculating release actions.")
           ([Effect.platformQueryServices] ++ (collectAvailableImages env services).1),
         some ("collecting available images to calculate regrades: " ++ e), [], []⟩ ∧
      ReadOnlyEffects
        ([Effect.platformQueryServices] ++ (collectAvailableImages env services).1)) ∧
    (∀ sel sid e, parseServiceID sel = .ok sid → containsServiceID ex sid = false →
      env.someServices [sid] = .error e →
      releaserRelease env subPath false ⟨.one sel, .latest, kind, ex⟩ s =
        ⟨addEffects (updateJob s "Calculating release actions.") [.platformQueryServices],
         some ("fetching service " ++ sid.canonical ++ " from platform: " ++ e), [], []⟩) := by
  refine ⟨?_, ?_, ?_⟩
  · intro e he
    refine releaserRelease_dispatch_error env subPath _ s _ _ ?_
    show releaseAllToLatest env ex = _
    exact releaseAllToLatest_allServices_error env ex e he
  · intro services e h1 h2
    refine ⟨releaserRelease_dispatch_error env subPath _ s _ _ ?_,
            readOnly_query_append_collect env services⟩
    show releaseAllToLatest env ex = _
    exact releaseAllToLatest_collect_error env ex services e h1 h2
  · intro sel sid e hparse hx he
    refine releaserRelease_dispatch_error env subPath _ s _ _ ?_
    have hd : dispatchPlan env ⟨.one sel, .latest, kind, ex⟩ = releaseOneToLatest env sid ex := by
      unfold dispatchPlan
      simp [hparse]
    rw [hd]
    exact releaseOneToLatest_platform_error env sid ex e hx he

theorem plannerErrorsAbortRelease_witness :
    failEnv.allServices "" [] = .error "platform down" ∧
    releaserRelease failEnv "deploy" false ⟨.all, .latest, .execute, []⟩ emptyRun =
      ⟨addEffects (updateJob emptyRun "Calculating release actions.")
         [.platformQueryServices],
       some ("fetching all platform services: " ++ "platform down"), [], []⟩ :=
  ⟨rfl, (plannerErrorsAbortRelease failEnv "deploy" .execute [] emptyRun).1
      "platform down" rfl⟩

theorem lookup_mem {α β : Type} [DecidableEq α] {m : List (α × β)} {k : α} {v : β}
    (h : List.lookup k m = some v) : (k, v) ∈ m := by
  induction m with
  | nil => cases h
  | cons p t ih =>
    rcases p with ⟨a, b⟩
    by_cases hk : k = a
    · subst hk
      simp [List.lookup] at h
      simp [h]
    · simp [List.lookup, beq_false_of_ne hk] at h
      exact List.mem_cons_of_mem _ (ih h)

theorem lookup_append_single {α β : Type} [DecidableEq α] {m : List (α × β)}
    {k a : α} {b : β} {l : β} (h : List.lookup a (m ++ [(k, b)]) = some l) :
    List.lookup a m = some l ∨ (a = k ∧ l = b) := by
  induction m with
  | nil =>
    by_cases hk : a = k
    · subst hk
      simp [List.lookup] at h
      exact Or.inr ⟨rfl, h.symm⟩
    · simp [List.lookup, beq_false_of_ne hk] at h
  | cons p t ih =>
    rcases p with ⟨x, y⟩
    by_cases hx : a = x
    · subst hx
      simp [List.lookup] at h ⊢
      exact Or.inl h
    · simp only [List.cons_append, List.lookup, beq_false_of_ne hx] at h ⊢
      exact ih h

/-- Well-formedness of an available-image map: every image listed under
a repository belongs to that repository. -/
def ImageMapWF (m : ImageMap) : Prop :=
  ∀ repo l, m.find repo = some l → ∀ d ∈ l, d.id.repository = repo

/-- Well-formedness of the registry oracle (spec §6: `GetRepository`
returns the images of the queried repository). -/
def RegistryWF (env : Env) : Prop :=
  ∀ repo l, env.registry repo = .ok l → ∀ d ∈ l, d.id.repository = repo

theorem foldPick_mem (d : ImageDesc) (ds : List ImageDesc) :
    ds.foldl (fun best x => if best.createdAt < x.createdAt then x else best) d ∈ d :: ds := by
  induction ds generalizing d with
  | nil => simp
  | cons x xs ih =>
    have h := ih (if d.createdAt < x.createdAt then x else d)
    rcases List.mem_cons.mp h with h1 | h1
    · by_cases hc : d.createdAt < x.createdAt
      · simp only [List.foldl_cons]
        rw [h1]
        simp [hc]
      · simp only [List.foldl_cons]
        rw [h1]
        simp [hc]
    · simp only [List.foldl_cons]
      exact List.mem_cons_of_mem _ (List.mem_cons_of_mem _ h1)

theorem latestImage_mem {m : ImageMap} {repo : String} {d : ImageDesc}
    (h : m.latestImage repo = .ok d) : ∃ l, m.find repo = some l ∧ d ∈ l := by
  unfold ImageMap.latestImage at h
  split at h
  · cases h
  · cases h
  · rename_i d0 ds hds
    refine ⟨_, hds, ?_⟩
    have hmem := foldPick_mem d0 ds
    injection h with h2
    rw [← h2]
    exact hmem

theorem latestImage_repository {m : ImageMap} {repo : String} {d : ImageDesc}
    (hwf : ImageMapWF m) (h : m.latestImage repo = .ok d) : d.id.repository = repo := by
  rcases latestImage_mem h with ⟨l, hl, hd⟩
  exact hwf repo l hl d hd

theorem imageMapWF_append {m : ImageMap} {repo : String} {imgs : List ImageDesc}
    (hm : ImageMapWF m) (h : ∀ d ∈ imgs, d.id.repository = repo) :
    ImageMapWF (m ++ [(repo, imgs)]) := by
  intro r l hl d hd
  rcases lookup_append_single hl with hl | ⟨rfl, rfl⟩
  · exact hm r l hl d hd
  · exact h d hd

theorem collect_foldl_WF (env : Env) (hreg : RegistryWF env) (repos : List String) :
    ∀ acc, (∀ m0, acc.2 = .ok m0 → ImageMapWF m0) →
      ∀ m, ((repos.foldl (collectStep env) acc)).2 = .ok m → ImageMapWF m := by
  induction repos with
  | nil => intro acc hacc m hm; exact hacc m hm
  | cons r rs ih =>
    intro acc hacc m hm
    refine ih (collectStep env acc r) ?_ m hm
    intro m0 hm0
    unfold collectStep at hm0
    split at hm0
    · exact hacc m0 hm0
    · rename_i mprev hprev
      split at hm0
      · cases hm0
      · rename_i imgs himgs
        injection hm0 with hm0
        rw [← hm0]
        exact imageMapWF_append (hacc mprev hprev) (hreg r imgs himgs)

theorem collectAvailableImages_WF {env : Env} (hreg : RegistryWF env)
    {services : List FService} {m : ImageMap}
    (h : (collectAvailableImages env services).2 = .ok m) : ImageMapWF m :=
  collect_foldl_WF env hreg (serviceRepos services) ([], .ok [])
    (by intro m0 hm0; injection hm0 with hm0; rw [← hm0]; intro repo l hl; cases hl) m h

/-- A per-container change the planner may emit: the target differs from
the current image and shares its repository. -/
def GoodR (r : ContainerRegrade) : Prop :=
  r.current ≠ r.target ∧ r.current.repository = r.target.repository

/-- Every regrade of every service in the map is a `GoodR`. -/
def GoodRegrades (m : List (ServiceID × List ContainerRegrade)) : Prop :=
  ∀ p ∈ m, ∀ r ∈ p.2, GoodR r

/-- Actions that only inform: the `printf` actions. -/
def InfoOnly (l : List ReleaseAction) : Prop :=
  ∀ a ∈ l, ∃ msg, a.spec = .printf msg

theorem infoOnly_nil : InfoOnly [] := by
  intro a ha; cases ha

theorem infoOnly_append {l1 l2 : List ReleaseAction} (h1 : InfoOnly l1) (h2 : InfoOnly l2) :
    InfoOnly (l1 ++ l2) := by
  intro a ha
  rcases List.mem_append.mp ha with ha | ha
  · exact h1 a ha
  · exact h2 a ha

theorem infoOnly_single (msg : String) : InfoOnly [mkAction (.printf msg)] := by
  intro a ha
  rcases List.mem_singleton.mp ha with rfl
  exact ⟨msg, rfl⟩

theorem goodRegrades_add {m : List (ServiceID × List ContainerRegrade)} {k : ServiceID}
    {r : ContainerRegrade} (hm : GoodRegrades m) (hr : GoodR r) :
    GoodRegrades (regradeMapAdd m k r) := by
  unfold regradeMapAdd
  split
  · intro p hp r0 hr0
    rcases List.mem_append.mp hp with hp | hp
    · exact hm p hp r0 hr0
    · rcases List.mem_singleton.mp hp with rfl
      rcases List.mem_singleton.mp hr0 with rfl
      exact hr
  · rename_i rs hrs
    intro p hp r0 hr0
    rcases List.mem_map.mp hp with ⟨q, hq, hfq⟩
    by_cases hqk : q.1 = k
    · rw [if_pos hqk] at hfq
      rw [← hfq] at hr0
      rcases List.mem_append.mp hr0 with hr0 | hr0
      · exact hm (k, rs) (lookup_mem hrs) r0 hr0
      · rcases List.mem_singleton.mp hr0 with rfl
        exact hr
    · rw [if_neg hqk] at hfq
      rw [← hfq] at hr0
      exact hm q hq r0 hr0

theorem latestLoopContainers_inv (imap : ImageMap) (sid : ServiceID) :
    ∀ (cs : List Container) (acc : List ReleaseAction × List (ServiceID × List ContainerRegrade))
      (res : List ReleaseAction × List (ServiceID × List ContainerRegrade)),
      latestLoopContainers imap sid acc cs = .ok res →
      (InfoOnly acc.1 → InfoOnly res.1) ∧
      (ImageMapWF imap → GoodRegrades acc.2 → GoodRegrades res.2) := by
  intro cs
  induction cs with
  | nil =>
    intro acc res h
    injection h with h
    rw [← h]
    exact ⟨fun x => x, fun _ x => x⟩
  | cons c cs ih =>
    intro acc res h
    unfold latestLoopContainers at h
    dsimp only at h
    split at h
    · cases h
    · rename_i latest hlatest
      split at h
      · rcases ih _ res h with ⟨hi, hg⟩
        exact ⟨fun ha => hi (infoOnly_append ha (infoOnly_single _)), hg⟩
      · rename_i hne
        rcases ih _ res h with ⟨hi, hg⟩
        refine ⟨hi, fun hwf ha => hg hwf (goodRegrades_add ha ?_)⟩
        exact ⟨hne, (latestImage_repository hwf hlatest).symm⟩

theorem latestLoopServices_inv (imap : ImageMap) :
    ∀ (ss : List FService) (acc res : List ReleaseAction × List (ServiceID × List ContainerRegrade)),
      latestLoopServices imap acc ss = .ok res →
      (InfoOnly acc.1 → InfoOnly res.1) ∧
      (ImageMapWF imap → GoodRegrades acc.2 → GoodRegrades res.2) := by
  intro ss
  induction ss with
  | nil =>
    intro acc res h
    injection h with h
    rw [← h]
    exact ⟨fun x => x, fun _ x => x⟩
  | cons s ss ih =>
    intro acc res h
    unfold latestLoopServices at h
    split at h
    · rcases ih _ res h with ⟨hi, hg⟩
      exact ⟨fun ha => hi (infoOnly_append ha (infoOnly_single _)), hg⟩
    · rename_i cs hcs
      rcases hstep : latestLoopContainers imap s.id acc cs with e | acc2
      · rw [hstep] at h; cases h
      · rw [hstep] at h
        rcases latestLoopContainers_inv imap s.id cs acc acc2 hstep with ⟨hi1, hg1⟩
        rcases ih acc2 res h with ⟨hi2, hg2⟩
        exact ⟨fun ha => hi2 (hi1 ha), fun hwf ha => hg2 hwf (hg1 hwf ha)⟩

/-- The regrades a fixed-target planner collects: each differs from the
target, matches its repository, and targets it. -/
def GoodRListT (l : List ContainerRegrade) (target : ImageID) : Prop :=
  ∀ r ∈ l, r.current ≠ target ∧ r.current.repository = target.repository ∧ r.target = target

theorem latestLoopOne_inv (imap : ImageMap) :
    ∀ (cs : List Container) (acc res : List ReleaseAction × List ContainerRegrade),
      latestLoopOne imap acc cs = .ok res →
      (InfoOnly acc.1 → InfoOnly res.1) ∧
      (ImageMapWF imap → (∀ r ∈ acc.2, GoodR r) → ∀ r ∈ res.2, GoodR r) := by
  intro cs
  induction cs with
  | nil =>
    intro acc res h
    injection h with h
    rw [← h]
    exact ⟨fun x => x, fun _ x => x⟩
  | cons c cs ih =>
    intro acc res h
    unfold latestLoopOne at h
    dsimp only at h
    split at h
    · cases h
    · rename_i latest hlatest
      split at h
      · rcases ih _ res h with ⟨hi, hg⟩
        exact ⟨fun ha => hi (infoOnly_append ha (infoOnly_single _)), hg⟩
      · rename_i hne
        rcases ih _ res h with ⟨hi, hg⟩
        refine ⟨hi, fun hwf ha => hg hwf ?_⟩
        intro r hr
        rcases List.mem_append.mp hr with hr | hr
        · exact ha r hr
        · rcases List.mem_singleton.mp hr with rfl
          exact ⟨hne, (latestImage_repository hwf hlatest).symm⟩

theorem imageLoopOne_inv (target : ImageID) (sid : ServiceID) :
    ∀ (cs : List Container) (acc : List ReleaseAction × List ContainerRegrade),
      (InfoOnly acc.1 → InfoOnly (imageLoopOne target sid acc cs).1) ∧
      (GoodRListT acc.2 target → GoodRListT (imageLoopOne target sid acc cs).2 target) := by
  intro cs
  induction cs with
  | nil => intro acc; exact ⟨fun x => x, fun x => x⟩
  | cons c cs ih =>
    intro acc
    unfold imageLoopOne
    dsimp only
    split
    · exact ih acc
    · split
      · rcases ih (acc.1 ++ [mkAction (.printf _)], acc.2) with ⟨hi, hg⟩
        exact ⟨fun ha => hi (infoOnly_append ha (infoOnly_single _)), hg⟩
      · rename_i hrep heq
        rcases ih (acc.1, acc.2 ++ [⟨c.name, parseImageID c.image, target⟩]) with ⟨hi, hg⟩
        refine ⟨hi, fun ha => hg ?_⟩
        intro r hr
        rcases List.mem_append.mp hr with hr | hr
        · exact ha r hr
        · rcases List.mem_singleton.mp hr with rfl
          exact ⟨heq, by simpa using hrep, rfl⟩

theorem imageLoopOne_mono (target : ImageID) (sid : ServiceID) :
    ∀ (cs : List Container) (acc : List ReleaseAction × List ContainerRegrade)
      (a : ReleaseAction), a ∈ acc.1 → a ∈ (imageLoopOne target sid acc cs).1 := by
  intro cs
  induction cs with
  | nil => intro acc a ha; exact ha
  | cons c cs ih =>
    intro acc a ha
    unfold imageLoopOne
    dsimp only
    split
    · exact ih acc a ha
    · split
      · exact ih _ a (List.mem_append.mpr (Or.inl ha))
      · exact ih _ a ha

theorem imageLoopOne_equal_info (target : ImageID) (sid : ServiceID) :
    ∀ (cs : List Container) (acc : List ReleaseAction × List ContainerRegrade)
      (c : Container), c ∈ cs → parseImageID c.image = target →
      mkAction (.printf ("Service " ++ sid.canonical ++ " image "
          ++ (parseImageID c.image).ref ++ " matches the target image exactly. Skipping."))
        ∈ (imageLoopOne target sid acc cs).1 := by
  intro cs
  induction cs with
  | nil => intro acc c hc; cases hc
  | cons c0 cs ih =>
    intro acc c hc heq
    rcases List.mem_cons.mp hc with rfl | hc
    · unfold imageLoopOne
      dsimp only
      rw [heq, if_neg (by simp), if_pos rfl]
      refine imageLoopOne_mono target sid cs _ _ ?_
      exact List.mem_append.mpr (Or.inr (List.mem_singleton.mpr rfl))
    · unfold imageLoopOne
      dsimp only
      split
      · exact ih acc c hc heq
      · split
        · exact ih _ c hc heq
        · exact ih _ c hc heq

theorem latestLoopOne_mono (imap : ImageMap) :
    ∀ (cs : List Container) (acc res : List ReleaseAction × List ContainerRegrade),
      latestLoopOne imap acc cs = .ok res → ∀ a ∈ acc.1, a ∈ res.1 := by
  intro cs
  induction cs with
  | nil =>
    intro acc res h a ha
    injection h with h
    rw [← h]
    exact ha
  | cons c cs ih =>
    intro acc res h a ha
    unfold latestLoopOne at h
    dsimp only at h
    split at h
    · cases h
    · split at h
      · exact ih _ res h a (List.mem_append.mpr (Or.inl ha))
      · exact ih _ res h a ha

theorem latestLoopOne_equal_info (imap : ImageMap) :
    ∀ (cs : List Container) (acc res : List ReleaseAction × List ContainerRegrade)
      (c : Container) (dsc : ImageDesc),
      latestLoopOne imap acc cs = .ok res → c ∈ cs →
      imap.latestImage (parseImageID c.image).repository = .ok dsc →
      dsc.id = parseImageID c.image →
      mkAction (.printf ("Service image " ++ (parseImageID c.image).ref
          ++ " is already the latest one; skipping.")) ∈ res.1 := by
  intro cs
  induction cs with
  | nil => intro acc res c dsc _ hc; cases hc
  | cons c0 cs ih =>
    intro acc res c dsc h hc hlatest hid
    rcases List.mem_cons.mp hc with rfl | hc
    · unfold latestLoopOne at h
      dsimp only at h
      rw [hlatest] at h
      dsimp only at h
      rw [if_pos hid.symm] at h
      exact latestLoopOne_mono imap cs _ res h _
        (List.mem_append.mpr (Or.inr (List.mem_singleton.mpr rfl)))
    · unfold latestLoopOne at h
      dsimp only at h
      split at h
      · cases h
      · split at h
        · exact ih _ res c dsc h hc hlatest hid
        · exact ih _ res c dsc h hc hlatest hid

theorem update_mem_plan {infos : List ReleaseAction}
    {rmap : List (ServiceID × List ContainerRegrade)} {a : ReleaseAction}
    {svc : ServiceID} {rs : List ContainerRegrade}
    {cmsg cause : String} {svcs : List ServiceID}
    (hinfo : InfoOnly infos)
    (ha : a ∈ infos ++ [mkAction .clone]
        ++ rmap.map (fun p => mkAction (.updatePodController p.1 p.2))
        ++ [mkAction (.commitAndPush cmsg), mkAction (.regradeServices svcs cause)])
    (hspec : a.spec = .updatePodController svc rs) : (svc, rs) ∈ rmap := by
  rcases List.mem_append.mp ha with ha | ha
  · rcases List.mem_append.mp ha with ha | ha
    · rcases List.mem_append.mp ha with ha | ha
      · rcases hinfo a ha with ⟨msg, hmsg⟩
        rw [hmsg] at hspec
        cases hspec
      · rcases List.mem_singleton.mp ha with rfl
        cases hspec
    · rcases List.mem_map.mp ha with ⟨p, hp, hfp⟩
      rw [← hfp] at hspec
      injection hspec with h1 h2
      rw [← h1, ← h2]
      simpa using hp
  · rcases List.mem_cons.mp ha with rfl | ha
    · cases hspec
    · rcases List.mem_singleton.mp ha with rfl
      cases hspec

/-- C4: the planner emits a `ContainerRegrade` only when the chosen
target image differs from the container's current one and the two share
the same `Repository()`: (i) under a well-formed registry, every
regrade planned by `releaseAllToLatest` has `current ≠ target` with
equal repositories (`releaser.go:169-186`); (ii) every regrade planned
by `releaseOne` has `current ≠ target`, `current` in the target's
repository, and the chosen target (`releaser.go:418-432`) — hence a
container equal to the target, or one from another repository, never
yields a regrade; (iii) a container whose image equals the target gets
the informational "matches the target image exactly" line; (iv) a
container already at its repository's latest gets the informational
"already the latest one" line. -/
theorem plannerRegradeOnlyWhenChanged (env : Env) :
    (∀ (ex : List ServiceID) (effs : List Effect) (actions : List ReleaseAction),
      RegistryWF env →
      releaseAllToLatest env ex = (effs, .ok actions) →
      ∀ a ∈ actions, ∀ svc rs, a.spec = .updatePodController svc rs →
        ∀ r ∈ rs, r.current ≠ r.target ∧ r.current.repository = r.target.repository) ∧
    (∀ (sid : ServiceID) (target : ImageID) (ex : List ServiceID)
       (effs : List Effect) (actions : List ReleaseAction),
      releaseOne env sid target ex = (effs, .ok actions) →
      ∀ a ∈ actions, ∀ svc rs, a.spec = .updatePodController svc rs →
        ∀ r ∈ rs, r.current ≠ target ∧ r.current.repository = target.repository
          ∧ r.target = target) ∧
    (∀ (target : ImageID) (sid : ServiceID) (cs : List Container)
       (acc : List ReleaseAction × List ContainerRegrade) (c : Container),
      c ∈ cs → parseImageID c.image = target →
      mkAction (.printf ("Service " ++ sid.canonical ++ " image "
          ++ (parseImageID c.image).ref ++ " matches the target image exactly. Skipping."))
        ∈ (imageLoopOne target sid acc cs).1) ∧
    (∀ (imap : ImageMap) (cs : List Container)
       (acc res : List ReleaseAction × List ContainerRegrade) (c : Container)
       (dsc : ImageDesc),
      latestLoopOne imap acc cs = .ok res → c ∈ cs →
      imap.latestImage (parseImageID c.image).repository = .ok dsc →
      dsc.id = parseImageID c.image →
      mkAction (.printf ("Service image " ++ (parseImageID c.image).ref
          ++ " is already the latest one; skipping.")) ∈ res.1) := by
  refine ⟨?_, ?_, ?_, ?_⟩
  · intro ex effs actions hreg h a ha svc rs hspec r hr
    unfold releaseAllToLatest getAllServices at h
    dsimp only at h
    split at h
    · injection h with h1 h2; cases h2
    · rename_i services hservices
      split at h
      · injection h with h1 h2; cases h2
      · rename_i imap himap
        rcases hloop : latestLoopServices imap ([], []) services with e | pair
        · rw [hloop] at h
          dsimp only at h
          injection h with h1 h2; cases h2
        · rcases pair with ⟨infos, rmap⟩
          rw [hloop] at h
          dsimp only at h
          have hinv := latestLoopServices_inv imap services ([], []) (infos, rmap) hloop
          have hinfos : InfoOnly infos := hinv.1 infoOnly_nil
          have hgood : GoodRegrades rmap :=
            hinv.2 (collectAvailableImages_WF hreg himap) (by intro p hp; cases hp)
          split at h
          · injection h with h1 h2
            injection h2 with h2
            rw [← h2] at ha
            have hall : InfoOnly (([mkAction (.printf "I'm going to release all services to their latest images.")] ++ infos)
                ++ [mkAction (.printf "All services are running the latest images. Nothing to do.")]) :=
              infoOnly_append (infoOnly_append (infoOnly_single _) hinfos) (infoOnly_single _)
            rcases hall a ha with ⟨msg, hmsg⟩
            rw [hmsg] at hspec
            cases hspec
          · injection h with h1 h2
            injection h2 with h2
            rw [← h2] at ha
            have hmem : (svc, rs) ∈ rmap :=
              update_mem_plan (infoOnly_append (infoOnly_single _) hinfos) ha hspec
            exact hgood (svc, rs) hmem r hr
  · intro sid target ex effs actions h a ha svc rs hspec r hr
    unfold releaseOne getServices at h
    dsimp only at h
    split at h
    · injection h with h1 h2
      injection h2 with h2
      rw [← h2] at ha
      have hall : InfoOnly ([mkAction (.printf ("I'm going to release image " ++ target.ref
          ++ " to service " ++ sid.canonical ++ "."))]
          ++ [mkAction (.printf ("Specified service " ++ sid.canonical
              ++ " is excluded; ignoring."))]) :=
        infoOnly_append (infoOnly_single _) (infoOnly_single _)
      rcases hall a ha with ⟨msg, hmsg⟩
      rw [hmsg] at hspec
      cases hspec
    · split at h
      · injection h with h1 h2; cases h2
      · rename_i service hserv
        split at h
        · injection h with h1 h2; cases h2
        · rename_i containers hcontainers
          rcases hloop : imageLoopOne target service.id ([], []) containers with ⟨infos, regrades⟩
          rw [hloop] at h
          dsimp only at h
          have hinv := imageLoopOne_inv target service.id containers ([], [])
          have hinfos : InfoOnly infos := by
            have hx := hinv.1 infoOnly_nil
            rw [hloop] at hx
            exact hx
          have hgood : GoodRListT regrades target := by
            have hx := hinv.2 (by intro x hx0; cases hx0)
            rw [hloop] at hx
            exact hx
          split at h
          · injection h with h1 h2
            injection h2 with h2
            rw [← h2] at ha
            have hall : InfoOnly (([mkAction (.printf ("I'm going to release image " ++ target.ref
                ++ " to service " ++ sid.canonical ++ "."))] ++ infos)
                ++ [mkAction (.printf ("All matching services are already running image "
                    ++ target.ref ++ ". Nothing to do."))]) :=
              infoOnly_append (infoOnly_append (infoOnly_single _) hinfos) (infoOnly_single _)
            rcases hall a ha with ⟨msg, hmsg⟩
            rw [hmsg] at hspec
            cases hspec
          · injection h with h1 h2
            injection h2 with h2
            rw [← h2] at ha
            rcases List.mem_append.mp ha with ha | ha
            · rcases (infoOnly_append (infoOnly_single ("I'm going to release image " ++ target.ref
                  ++ " to service " ++ sid.canonical ++ ".")) hinfos) a ha with ⟨msg, hmsg⟩
              rw [hmsg] at hspec
              cases hspec
            · rcases List.mem_cons.mp ha with rfl | ha
              · cases hspec
              · rcases List.mem_cons.mp ha with rfl | ha
                · injection hspec with h3 h4
                  rw [← h4] at hr
                  exact hgood r hr
                · rcases List.mem_cons.mp ha with rfl | ha
                  · cases hspec
                  · rcases List.mem_singleton.mp ha with rfl
                    cases hspec
      · injection h with h1 h2; cases h2
  · intro target sid cs acc c hc heq
    exact imageLoopOne_equal_info target sid cs acc c hc heq
  · intro imap cs acc res c dsc h hc hlatest hid
    exact latestLoopOne_equal_info imap cs acc res c dsc h hc hlatest hid

theorem registryWF_demoEnv : RegistryWF demoEnv := by
  intro repo l h d hd
  unfold demoEnv at h
  dsimp only at h
  split at h
  · rename_i hrepo
    injection h with h
    rw [← h] at hd
    subst hrepo
    rcases List.mem_cons.mp hd with rfl | hd
    · decide
    · rcases List.mem_singleton.mp hd with rfl
      decide
  · cases h

def whRegrade : ContainerRegrade :=
  ⟨"helloworld", ⟨"quay.io", "weaveworks/helloworld", "master-a000001"⟩,
   ⟨"quay.io", "weaveworks/helloworld", "master-9a16ff9"⟩⟩

def demoEffs : List Effect :=
  [Effect.platformQueryServices, Effect.registryFetch "quay.io/weaveworks/helloworld"]

def demoPlanActions : List ReleaseAction :=
  [mkAction (.printf "I'm going to release all services to their latest images."),
   mkAction .clone,
   mkAction (.updatePodController wh [whRegrade]),
   mkAction (.commitAndPush "Release latest images to all services"),
   mkAction (.regradeServices [wh] "latest images (to all services)")]

theorem plannerRegradeOnlyWhenChanged_witness :
    RegistryWF demoEnv ∧
    releaseAllToLatest demoEnv [] = (demoEffs, .ok demoPlanActions) ∧
    (whRegrade.current ≠ whRegrade.target ∧
     whRegrade.current.repository = whRegrade.target.repository) :=
  ⟨registryWF_demoEnv, rfl,
   (plannerRegradeOnlyWhenChanged demoEnv).1 [] demoEffs demoPlanActions registryWF_demoEnv
     rfl (mkAction (.updatePodController wh [whRegrade])) (by decide) wh [whRegrade] rfl
     whRegrade (by decide)⟩

/-- The regrade calls in a trace. -/
def isRegradeCall : Effect → Bool
  | .platformRegrade _ => true
  | _ => false

theorem readOnly_no_regrade {es : List Effect} (h : ReadOnlyEffects es) :
    es.filter isRegradeCall = [] := by
  rw [List.filter_eq_nil_iff]
  intro e he
  have hw := h e he
  cases e <;> simp_all [Effect.isWrite, isRegradeCall]

theorem executeGo_infoOnly (env : Env) (subPath : String) (kind : ReleaseKind)
    (actions : List ReleaseAction) (hinfo : InfoOnly actions) :
    ∀ (rc : ReleaseContext) (s : RunState),
      (executeGo env subPath kind actions rc s).err = none ∧
      (executeGo env subPath kind actions rc s).state.effects = s.effects := by
  induction actions with
  | nil => intro rc s; simp [executeGo]
  | cons a rest ih =>
    intro rc s
    have hrest : InfoOnly rest := fun x hx => hinfo x (List.mem_cons_of_mem a hx)
    rcases hinfo a (List.mem_cons_self a rest) with ⟨msg, hmsg⟩
    cases kind with
    | plan =>
      simpa [executeGo] using ih hrest rc (updateJob s a.spec.description)
    | execute =>
      have hda : doAction env subPath a.spec rc = (rc, [], .ok "") := by
        rw [hmsg]; rfl
      simp only [executeGo, hda]
      simpa [addEffects] using ih hrest rc (updateJob s a.spec.description)

theorem releaserRelease_dispatch_ok (env : Env) (subPath : String)
    (spec : ReleaseJobSpec) (s : RunState) (effs : List Effect)
    (actions : List ReleaseAction) (h : dispatchPlan env spec = (effs, .ok actions)) :
    releaserRelease env subPath false spec s =
      ⟨(executeGo env subPath spec.kind actions newReleaseContext
          (addEffects (updateJob s "Calculating release actions.") effs)).state,
       (executeGo env subPath spec.kind actions newReleaseContext
          (addEffects (updateJob s "Calculating release actions.") effs)).err,
       (executeGo env subPath spec.kind actions newReleaseContext
          (addEffects (updateJob s "Calculating release actions.") effs)).actions,
       (executeGo env subPath spec.kind actions newReleaseContext
          (addEffects (updateJob s "Calculating release actions.") effs)).executed⟩ := by
  unfold releaserRelease
  simp [h]

theorem releaseAllToLatest_empty (env : Env) (ex : List ServiceID)
    (services : List FService) (imap : ImageMap) (infos : List ReleaseAction)
    (h1 : env.allServices "" [] = .ok services)
    (h2 : (collectAvailableImages env services).2 = .ok imap)
    (h3 : latestLoopServices imap ([], []) services = .ok (infos, [])) :
    releaseAllToLatest env ex
      = ([Effect.platformQueryServices] ++ (collectAvailableImages env services).1,
         .ok ([mkAction (.printf "I'm going to release all services to their latest images.")]
           ++ infos
           ++ [mkAction (.printf "All services are running the latest images. Nothing to do.")])) := by
  unfold releaseAllToLatest getAllServices
  simp [h1, h2, h3]

theorem releaseOneToLatest_empty (env : Env) (sid : ServiceID) (ex : List ServiceID)
    (service : FService) (containers : List Container) (imap : ImageMap)
    (infos : List ReleaseAction)
    (hx : containsServiceID ex sid = false)
    (hsvc : env.someServices [sid] = .ok [service])
    (hcont : service.containersOrError = .ok containers)
    (h2 : (collectAvailableImages env [service]).2 = .ok imap)
    (h3 : latestLoopOne imap ([], []) containers = .ok (infos, [])) :
    releaseOneToLatest env sid ex
      = ([Effect.platformQueryServices] ++ (collectAvailableImages env [service]).1,
         .ok ([mkAction (.printf ("I'm going to release the latest images(s) for service "
                ++ sid.canonical ++ "."))]
           ++ infos
           ++ [mkAction (.printf "The service is already running the latest version of all its images. Nothing to do.")])) := by
  unfold releaseOneToLatest getServices
  simp [hx, hsvc, hcont, h2, h3]

/-- C5: when the computed regrade set is empty, the plan ends in the
single "Nothing to do." informational entry, `Release` succeeds, and
the platform `Regrade` operation is never invoked, for both
`releaseAllToLatest` (`releaser.go:188-191`) and `releaseOneToLatest`
(`releaser.go:357-360`). -/
theorem emptyRegradeSetIsNoop (env : Env) (subPath : String) (ex : List ServiceID) :
    (∀ (services : List FService) (imap : ImageMap) (infos : List ReleaseAction),
      env.allServices "" [] = .ok services →
      (collectAvailableImages env services).2 = .ok imap →
      latestLoopServices imap ([], []) services = .ok (infos, []) →
      (releaseAllToLatest env ex).2
        = .ok ([mkAction (.printf "I'm going to release all services to their latest images.")]
           ++ infos
           ++ [mkAction (.printf "All services are running the latest images. Nothing to do.")]) ∧
      (∀ (kind : ReleaseKind) (s : RunState),
        (releaserRelease env subPath false ⟨.all, .latest, kind, ex⟩ s).err = none ∧
        (releaserRelease env subPath false ⟨.all, .latest, kind, ex⟩ s).state.effects.filter
            isRegradeCall = s.effects.filter isRegradeCall)) ∧
    (∀ (sel : String) (sid : ServiceID) (service : FService)
       (containers : List Container) (imap : ImageMap) (infos : List ReleaseAction),
      parseServiceID sel = .ok sid →
      containsServiceID ex sid = false →
      env.someServices [sid] = .ok [service] →
      service.containersOrError = .ok containers →
      (collectAvailableImages env [service]).2 = .ok imap →
      latestLoopOne imap ([], []) containers = .ok (infos, []) →
      (releaseOneToLatest env sid ex).2
        = .ok ([mkAction (.printf ("I'm going to release the latest images(s) for service "
               ++ sid.canonical ++ "."))]
           ++ infos
           ++ [mkAction (.printf "The service is already running the latest version of all its images. Nothing to do.")]) ∧
      (∀ (kind : ReleaseKind) (s : RunState),
        (releaserRelease env subPath false ⟨.one sel, .latest, kind, ex⟩ s).err = none ∧
        (releaserRelease env subPath false ⟨.one sel, .latest, kind, ex⟩ s).state.effects.filter
            isRegradeCall = s.effects.filter isRegradeCall)) := by
  constructor
  · intro services imap infos h1 h2 h3
    have hplan := releaseAllToLatest_empty env ex services imap infos h1 h2 h3
    have hinfos : InfoOnly infos :=
      (latestLoopServices_inv imap services ([], []) (infos, []) h3).1 infoOnly_nil
    have hinfoPlan : InfoOnly
        ([mkAction (.printf "I'm going to release all services to their latest images.")]
          ++ infos
          ++ [mkAction (.printf "All services are running the latest images. Nothing to do.")]) :=
      infoOnly_append (infoOnly_append (infoOnly_single _) hinfos) (infoOnly_single _)
    refine ⟨by rw [hplan], ?_⟩
    intro kind s
    have hd : dispatchPlan env ⟨.all, .latest, kind, ex⟩
        = ([Effect.platformQueryServices] ++ (collectAvailableImages env services).1,
           .ok ([mkAction (.printf "I'm going to release all services to their latest images.")]
             ++ infos
             ++ [mkAction (.printf "All services are running the latest images. Nothing to do.")])) := hplan
    rw [releaserRelease_dispatch_ok env subPath _ s _ _ hd]
    have hrun := executeGo_infoOnly env subPath kind _ hinfoPlan newReleaseContext
      (addEffects (updateJob s "Calculating release actions.")
        ([Effect.platformQueryServices] ++ (collectAvailableImages env services).1))
    refine ⟨hrun.1, ?_⟩
    rw [hrun.2]
    dsimp only [addEffects, updateJob]
    rw [List.filter_append, readOnly_no_regrade
      (readOnly_query_append_collect env services), List.append_nil]
  · intro sel sid service containers imap infos hparse hx hsvc hcont h2 h3
    have hplan := releaseOneToLatest_empty env sid ex service containers imap infos
      hx hsvc hcont h2 h3
    have hinfos : InfoOnly infos :=
      (latestLoopOne_inv imap containers ([], []) (infos, []) h3).1 infoOnly_nil
    have hinfoPlan : InfoOnly
        ([mkAction (.printf ("I'm going to release the latest images(s) for service "
            ++ sid.canonical ++ "."))]
          ++ infos
          ++ [mkAction (.printf "The service is already running the latest version of all its images. Nothing to do.")]) :=
      infoOnly_append (infoOnly_append (infoOnly_single _) hinfos) (infoOnly_single _)
    refine ⟨by rw [hplan], ?_⟩
    intro kind s
    have hd : dispatchPlan env ⟨.one sel, .latest, kind, ex⟩
        = ([Effect.platformQueryServices] ++ (collectAvailableImages env [service]).1,
           .ok ([mkAction (.printf ("I'm going to release the latest images(s) for service "
                  ++ sid.canonical ++ "."))]
             ++ infos
             ++ [mkAction (.printf "The service is already running the latest version of all its images. Nothing to do.")])) := by
      unfold dispatchPlan
      simp only [hparse]
      exact hplan
    rw [releaserRelease_dispatch_ok env subPath _ s _ _ hd]
    have hrun := executeGo_infoOnly env subPath kind _ hinfoPlan newReleaseContext
      (addEffects (updateJob s "Calculating release actions.")
        ([Effect.platformQueryServices] ++ (collectAvailableImages env [service]).1))
    refine ⟨hrun.1, ?_⟩
    rw [hrun.2]
    dsimp only [addEffects, updateJob]
    rw [List.filter_append, readOnly_no_regrade
      (readOnly_query_append_collect env [service]), List.append_nil]

def whImageNew : String := "quay.io/weaveworks/helloworld:master-9a16ff9"

def svcWhLatest : FService := ⟨wh, .ok [⟨"helloworld", whImageNew⟩]⟩

/-- Like `demoEnv`, but the service already runs the registry's latest
tag: nothing to do. -/
def noopEnv : Env :=
  ⟨fun _ ig => .ok (if ig.contains wh then [] else [svcWhLatest]),
   fun ids => .ok (if ids.contains wh then [svcWhLatest] else []),
   fun r => if r = "quay.io/weaveworks/helloworld" then
      .ok [⟨⟨"quay.io", "weaveworks/helloworld", "master-9a16ff9"⟩, 5⟩,
           ⟨⟨"quay.io", "weaveworks/helloworld", "master-a000001"⟩, 3⟩]
    else .error "unknown repo",
   .ok ("/tmp/checkout", "/tmp/keyfile"),
   fun _ => true,
   fun _ _ _ => .ok ["/tmp/checkout/deploy/helloworld.yaml"],
   fun _ => .ok "containers: old",
   fun _ => none,
   fun _ t => .ok ("containers: " ++ t),
   fun _ _ => none,
   fun _ => none,
   fun _ _ _ => ("", none),
   fun _ => none⟩

def noopImap : ImageMap :=
  [("quay.io/weaveworks/helloworld",
    [⟨⟨"quay.io", "weaveworks/helloworld", "master-9a16ff9"⟩, 5⟩,
     ⟨⟨"quay.io", "weaveworks/helloworld", "master-a000001"⟩, 3⟩])]

def noopInfos : List ReleaseAction :=
  [mkAction (.printf
    "Service image quay.io/weaveworks/helloworld:master-9a16ff9 is already the latest one; skipping.")]

theorem emptyRegradeSetIsNoop_witness :
    noopEnv.allServices "" [] = .ok [svcWhLatest] ∧
    (collectAvailableImages noopEnv [svcWhLatest]).2 = .ok noopImap ∧
    latestLoopServices noopImap ([], []) [svcWhLatest] = .ok (noopInfos, []) ∧
    ((releaseAllToLatest noopEnv []).2
        = .ok ([mkAction (.printf "I'm going to release all services to their latest images.")]
          ++ noopInfos
          ++ [mkAction (.printf "All services are running the latest images. Nothing to do.")]) ∧
     ∀ (kind : ReleaseKind) (s : RunState),
       (releaserRelease noopEnv "deploy" false ⟨.all, .latest, kind, []⟩ s).err = none ∧
       (releaserRelease noopEnv "deploy" false ⟨.all, .latest, kind, []⟩ s).state.effects.filter
           isRegradeCall = s.effects.filter isRegradeCall) :=
  ⟨rfl, rfl, rfl,
   (emptyRegradeSetIsNoop noopEnv "deploy" []).1 [svcWhLatest] noopImap noopInfos rfl rfl rfl⟩

/-- C6: whenever the regrade set is non-empty, the emitted plan is, in
order: the informational prefix, then one clone action, one
update-pod-controller action per affected workload, one
commit-and-push action with the generated message, and exactly one
batched regrade-services action naming all affected workloads
(`releaser.go:200-209` and `369-372`). -/
theorem nonemptyRegradePlanShape (env : Env) :
    (∀ (ex : List ServiceID) (services : List FService) (imap : ImageMap)
       (infos : List ReleaseAction) (rmap : List (ServiceID × List ContainerRegrade)),
      env.allServices "" [] = .ok services →
      (collectAvailableImages env services).2 = .ok imap →
      latestLoopServices imap ([], []) services = .ok (infos, rmap) →
      rmap.isEmpty = false →
      (releaseAllToLatest env ex).2
        = .ok (([mkAction (.printf "I'm going to release all services to their latest images.")]
            ++ infos)
          ++ [mkAction .clone]
          ++ rmap.map (fun p => mkAction (.updatePodController p.1 p.2))
          ++ [mkAction (.commitAndPush "Release latest images to all services"),
              mkAction (.regradeServices (rmap.map Prod.fst)
                "latest images (to all services)")]) ∧
      InfoOnly ([mkAction (.printf "I'm going to release all services to their latest images.")]
        ++ infos)) ∧
    (∀ (sid : ServiceID) (ex : List ServiceID) (service : FService)
       (containers : List Container) (imap : ImageMap)
       (infos : List ReleaseAction) (regrades : List ContainerRegrade),
      containsServiceID ex sid = false →
      env.someServices [sid] = .ok [service] →
      service.containersOrError = .ok containers →
      (collectAvailableImages env [service]).2 = .ok imap →
      latestLoopOne imap ([], []) containers = .ok (infos, regrades) →
      regrades.isEmpty = false →
      (releaseOneToLatest env sid ex).2
        = .ok (([mkAction (.printf ("I'm going to release the latest images(s) for service "
              ++ sid.canonical ++ "."))]
            ++ infos)
          ++ [mkAction .clone,
              mkAction (.updatePodController sid regrades),
              mkAction (.commitAndPush ("Release latest images to " ++ sid.canonical)),
              mkAction (.regradeServices [sid] "latest images")]) ∧
      InfoOnly ([mkAction (.printf ("I'm going to release the latest images(s) for service "
          ++ sid.canonical ++ "."))] ++ infos)) := by
  constructor
  · intro ex services imap infos rmap h1 h2 h3 hne
    have hinfos : InfoOnly infos :=
      (latestLoopServices_inv imap services ([], []) (infos, rmap) h3).1 infoOnly_nil
    refine ⟨?_, infoOnly_append (infoOnly_single _) hinfos⟩
    unfold releaseAllToLatest getAllServices
    simp [h1, h2, h3, hne]
  · intro sid ex service containers imap infos regrades hx hsvc hcont h2 h3 hne
    have hinfos : InfoOnly infos :=
      (latestLoopOne_inv imap containers ([], []) (infos, regrades) h3).1 infoOnly_nil
    refine ⟨?_, infoOnly_append (infoOnly_single _) hinfos⟩
    unfold releaseOneToLatest getServices
    simp [hx, hsvc, hcont, h2, h3, hne]

def demoRmap : List (ServiceID × List ContainerRegrade) := [(wh, [whRegrade])]

theorem nonemptyRegradePlanShape_witness :
    demoEnv.allServices "" [] = .ok [svcWh] ∧
    (collectAvailableImages demoEnv [svcWh]).2 = .ok noopImap ∧
    latestLoopServices noopImap ([], []) [svcWh] = .ok ([], demoRmap) ∧
    demoRmap.isEmpty = false ∧
    ((releaseAllToLatest demoEnv []).2
        = .ok (([mkAction (.printf "I'm going to release all services to their latest images.")]
            ++ [])
          ++ [mkAction .clone]
          ++ demoRmap.map (fun p => mkAction (.updatePodController p.1 p.2))
          ++ [mkAction (.commitAndPush "Release latest images to all services"),
              mkAction (.regradeServices (demoRmap.map Prod.fst)
                "latest images (to all services)")]) ∧
     InfoOnly ([mkAction (.printf "I'm going to release all services to their latest images.")]
       ++ [])) :=
  ⟨rfl, rfl, rfl, rfl,
   (nonemptyRegradePlanShape demoEnv).1 [] [svcWh] noopImap [] demoRmap rfl rfl rfl rfl⟩

theorem lookup_map_replace {α β : Type} [DecidableEq α] (m : List (α × β)) (k : α) (v : β)
    (h : (List.lookup k m).isSome = true) :
    List.lookup k (m.map (fun p => if p.1 = k then (k, v) else p)) = some v := by
  induction m with
  | nil => simp [List.lookup] at h
  | cons p t ih =>
    rcases p with ⟨a, b⟩
    by_cases hk : a = k
    · subst hk
      simp only [List.map_cons, if_pos rfl]
      simp [List.lookup]
    · have hk2 : ¬ (k = a) := fun hh => hk hh.symm
      simp only [List.lookup, beq_false_of_ne hk2] at h
      simp only [List.map_cons, if_neg hk]
      simp only [List.lookup, beq_false_of_ne hk2]
      exact ih h

theorem lookup_map_replace_ne {α β : Type} [DecidableEq α] (m : List (α × β))
    (k k' : α) (v : β) (h : k' ≠ k) :
    List.lookup k' (m.map (fun p => if p.1 = k then (k, v) else p)) = List.lookup k' m := by
  induction m with
  | nil => simp
  | cons p t ih =>
    rcases p with ⟨a, b⟩
    by_cases hk : a = k
    · subst hk
      simp only [List.map_cons, if_pos rfl]
      simp only [List.lookup, beq_false_of_ne h]
      exact ih
    · simp only [List.map_cons, if_neg hk]
      by_cases hk2 : k' = a
      · subst hk2
        simp [List.lookup]
      · simp only [List.lookup, beq_false_of_ne hk2]
        exact ih

theorem lookup_append_ne {α β : Type} [DecidableEq α] (m : List (α × β))
    (k k' : α) (v : β) (h : k' ≠ k) :
    List.lookup k' (m ++ [(k, v)]) = List.lookup k' m := by
  induction m with
  | nil => simp [List.lookup, beq_false_of_ne h]
  | cons p t ih =>
    rcases p with ⟨a, b⟩
    by_cases hk2 : k' = a
    · subst hk2
      simp [List.lookup]
    · simp only [List.cons_append, List.lookup, beq_false_of_ne hk2]
      exact ih

theorem lookup_append_self_of_none {α β : Type} [DecidableEq α] (m : List (α × β))
    (k : α) (v : β) (h : List.lookup k m = none) :
    List.lookup k (m ++ [(k, v)]) = some v := by
  induction m with
  | nil => simp [List.lookup]
  | cons p t ih =>
    rcases p with ⟨a, b⟩
    by_cases hk : k = a
    · subst hk
      simp [List.lookup] at h
    · simp only [List.lookup, beq_false_of_ne hk] at h
      simp only [List.cons_append, List.lookup, beq_false_of_ne hk]
      exact ih h

theorem lookup_mapInsert_self {α β : Type} [DecidableEq α] (m : List (α × β))
    (k : α) (v : β) : List.lookup k (mapInsert m k v) = some v := by
  unfold mapInsert
  split
  · rename_i h
    exact lookup_map_replace m k v h
  · rename_i h
    refine lookup_append_self_of_none m k v ?_
    rcases hl : List.lookup k m with _ | w
    · rfl
    · rw [hl] at h
      simp at h

theorem lookup_mapInsert_ne {α β : Type} [DecidableEq α] (m : List (α × β))
    (k k' : α) (v : β) (h : k' ≠ k) :
    List.lookup k' (mapInsert m k v) = List.lookup k' m := by
  unfold mapInsert
  split
  · exact lookup_map_replace_ne m k k' v h
  · exact lookup_append_ne m k k' v h

theorem regradeCollect_specs_go (rc : ReleaseContext) (cause : String) :
    ∀ (services : List ServiceID)
      (acc : List (ServiceID × String) × List RegradeSpec × List Effect),
      (services.foldl (regradeStep rc cause) acc).2.1
        = acc.2.1 ++ services.filterMap (fun svc =>
            (List.lookup svc rc.podControllers).map
              (fun d => (⟨⟨svc.ns, svc.name⟩, d⟩ : RegradeSpec))) := by
  intro services
  induction services with
  | nil => intro acc; simp
  | cons s ss ih =>
    intro acc
    rcases hpc : List.lookup s rc.podControllers with _ | d
    · simp only [List.foldl_cons]
      rw [ih]
      simp [regradeStep, hpc]
    · simp only [List.foldl_cons]
      rw [ih]
      simp [regradeStep, hpc]

theorem regradeCollect_results_lookup_go (rc : ReleaseContext) (cause : String) :
    ∀ (services : List ServiceID)
      (acc : List (ServiceID × String) × List RegradeSpec × List Effect)
      (svc : ServiceID),
      List.lookup svc (services.foldl (regradeStep rc cause) acc).1
        = if svc ∈ services ∧ List.lookup svc rc.podControllers = none
          then some "no pod controller in release context; skipping regrade"
          else List.lookup svc acc.1 := by
  intro services
  induction services with
  | nil => intro acc svc; simp
  | cons s ss ih =>
    intro acc svc
    simp only [List.foldl_cons]
    rw [ih]
    by_cases hC : svc ∈ ss ∧ List.lookup svc rc.podControllers = none
    · rw [if_pos hC, if_pos ⟨List.mem_cons_of_mem s hC.1, hC.2⟩]
    · rw [if_neg hC]
      rcases hpc : List.lookup s rc.podControllers with _ | d
      · by_cases hss : svc = s
        · subst hss
          simp only [regradeStep, hpc]
          rw [lookup_mapInsert_self]
          simp
        · simp only [regradeStep, hpc]
          rw [lookup_mapInsert_ne _ _ _ _ hss]
          have : ¬ (svc ∈ s :: ss ∧ List.lookup svc rc.podControllers = none) := by
            intro ⟨hmem, hnone⟩
            rcases List.mem_cons.mp hmem with h1 | h1
            · exact hss h1
            · exact hC ⟨h1, hnone⟩
          rw [if_neg this]
      · simp only [regradeStep, hpc]
        have : ¬ (svc ∈ s :: ss ∧ List.lookup svc rc.podControllers = none) := by
          intro ⟨hmem, hnone⟩
          rcases List.mem_cons.mp hmem with h1 | h1
          · subst h1
            rw [hpc] at hnone
            cases hnone
          · exact hC ⟨h1, hnone⟩
        rw [if_neg this]

theorem nsPair_inj {a b : NamespacedService}
    (h : (⟨a.ns, a.svc⟩ : ServiceID) = ⟨b.ns, b.svc⟩) : a = b := by
  rcases a with ⟨a1, a2⟩
  rcases b with ⟨b1, b2⟩
  simp only [ServiceID.mk.injEq] at h
  simp [NamespacedService.mk.injEq, h.1, h.2]

theorem distribute_frame :
    ∀ (rerr : RegradeError) (results : List (ServiceID × String)) (k : ServiceID),
      (∀ q ∈ rerr, parseServiceID (q.1.ns ++ "/" ++ q.1.svc) = .ok ⟨q.1.ns, q.1.svc⟩) →
      (∀ q ∈ rerr, (⟨q.1.ns, q.1.svc⟩ : ServiceID) ≠ k) →
      List.lookup k (rerr.foldl distributeStep results) = List.lookup k results := by
  intro rerr
  induction rerr with
  | nil => intro results k _ _; rfl
  | cons q qs ih =>
    intro results k hparse hne
    simp only [List.foldl_cons]
    rw [ih _ k (fun p hp => hparse p (List.mem_cons_of_mem q hp))
        (fun p hp => hne p (List.mem_cons_of_mem q hp))]
    unfold distributeStep
    rw [hparse q (List.mem_cons_self q qs)]
    exact lookup_mapInsert_ne _ _ _ _ (Ne.symm (hne q (List.mem_cons_self q qs)))

theorem distribute_hit :
    ∀ (rerr : RegradeError) (results : List (ServiceID × String))
      (p : NamespacedService × String),
      p ∈ rerr →
      (∀ q ∈ rerr, parseServiceID (q.1.ns ++ "/" ++ q.1.svc) = .ok ⟨q.1.ns, q.1.svc⟩) →
      (rerr.map Prod.fst).Nodup →
      List.lookup (⟨p.1.ns, p.1.svc⟩ : ServiceID) (rerr.foldl distributeStep results)
        = some p.2 := by
  intro rerr
  induction rerr with
  | nil => intro results p hp; cases hp
  | cons q qs ih =>
    intro results p hp hparse hnodup
    rw [List.map_cons] at hnodup
    rcases List.nodup_cons.mp hnodup with ⟨hq, hqs⟩
    rcases List.mem_cons.mp hp with rfl | hp
    · simp only [List.foldl_cons]
      rw [distribute_frame qs _ _
          (fun r hr => hparse r (List.mem_cons_of_mem p hr)) ?_]
      · unfold distributeStep
        rw [hparse p (List.mem_cons_self p qs)]
        exact lookup_mapInsert_self _ _ _
      · intro r hr heq
        have hr1 : r.1 = p.1 := nsPair_inj heq
        exact hq (List.mem_map.mpr ⟨r, hr, hr1⟩)
    · exact ih _ p hp (fun r hr => hparse r (List.mem_cons_of_mem q hr)) hqs

/-- C8: in the regrade-services action (`releaser.go:738-795`): (i) a
service missing from `ReleaseContext.PodControllers` is recorded in the
result map with the "no pod controller in release context" error and no
`RegradeSpec` for it enters the batch; (ii) each entry of the returned
`RegradeError` is distributed into the per-service result map keyed by
`(namespace, service)` (for keys that parse back to themselves, i.e.
slash-free namespaces, distinct as in a Go map); (iii) every service in
the batch that is absent from the error map ends as successful, with
the history event `Regrade <cause>: done`. -/
theorem regradeServicesSemantics (env : Env) (services : List ServiceID)
    (cause : String) (rc : ReleaseContext) :
    (∀ svc ∈ services, List.lookup svc rc.podControllers = none →
      List.lookup svc (regradeCollect rc cause services).1
        = some "no pod controller in release context; skipping regrade" ∧
      ∀ sp ∈ (regradeCollect rc cause services).2.1, sp.nsSvc ≠ ⟨svc.ns, svc.name⟩) ∧
    (∀ rerr : RegradeError,
      env.regrade (regradeCollect rc cause services).2.1 = some rerr →
      (∀ q ∈ rerr, parseServiceID (q.1.ns ++ "/" ++ q.1.svc) = .ok ⟨q.1.ns, q.1.svc⟩) →
      (rerr.map Prod.fst).Nodup →
      (∀ p ∈ rerr,
        List.lookup (⟨p.1.ns, p.1.svc⟩ : ServiceID)
          (distributeRegradeError (regradeCollect rc cause services).1 rerr) = some p.2) ∧
      (∀ svc ∈ services, (List.lookup svc rc.podControllers).isSome = true →
        (∀ p ∈ rerr, (⟨p.1.ns, p.1.svc⟩ : ServiceID) ≠ svc) →
        Effect.historyEvent svc.ns svc.name ("Regrade " ++ cause ++ ": done")
          ∈ (regradeServicesDo env services cause rc).2.1)) := by
  constructor
  · intro svc hmem hpc
    constructor
    · unfold regradeCollect
      rw [regradeCollect_results_lookup_go]
      rw [if_pos ⟨hmem, hpc⟩]
    · intro sp hsp
      unfold regradeCollect at hsp
      rw [regradeCollect_specs_go] at hsp
      simp only [List.nil_append] at hsp
      rcases List.mem_filterMap.mp hsp with ⟨svc2, hsvc2, hf⟩
      rcases hd : List.lookup svc2 rc.podControllers with _ | d
      · rw [hd] at hf; cases hf
      · rw [hd] at hf
        injection hf with hf
        rw [← hf]
        intro heq
        dsimp only at heq
        have h2 : svc2 = svc := by
          rcases svc2 with ⟨n2, m2⟩
          rcases svc with ⟨n1, m1⟩
          simp only [NamespacedService.mk.injEq] at heq
          simp [heq.1, heq.2]
        rw [h2, hpc] at hd
        cases hd
  · intro rerr htx hparse hnodup
    constructor
    · intro p hp
      unfold distributeRegradeError
      exact distribute_hit rerr _ p hp hparse hnodup
    · intro svc hmem hsome hne
      have hlk0 : List.lookup svc (regradeCollect rc cause services).1 = none := by
        unfold regradeCollect
        rw [regradeCollect_results_lookup_go]
        have hno : ¬ (svc ∈ services ∧ List.lookup svc rc.podControllers = none) := by
          intro ⟨_, hn⟩
          rw [hn] at hsome
          cases hsome
        rw [if_neg hno]
        rfl
      have hlk : List.lookup svc
          (distributeRegradeError (regradeCollect rc cause services).1 rerr) = none := by
        unfold distributeRegradeError
        rw [distribute_frame rerr _ svc hparse hne]
        exact hlk0
      unfold regradeServicesDo
      dsimp only
      rw [htx]
      dsimp only
      refine List.mem_append.mpr (Or.inr ?_)
      refine List.mem_map.mpr ⟨svc, hmem, ?_⟩
      rw [hlk]

def svcA : ServiceID := ⟨"default", "a"⟩

def svcB : ServiceID := ⟨"default", "b"⟩

def svcC : ServiceID := ⟨"default", "c"⟩

def c8rc : ReleaseContext := ⟨"/co", "/key", [(svcA, "defA"), (svcB, "defB")]⟩

def c8err : RegradeError := [(⟨"default", "a"⟩, "x")]

/-- An environment whose platform regrade partially fails: `default/a`
is reported failed. -/
def c8Env : Env :=
  ⟨fun _ _ => .ok [],
   fun _ => .ok [],
   fun _ => .error "unknown repo",
   .ok ("/co", "/key"),
   fun _ => true,
   fun _ _ _ => .ok [],
   fun _ => .ok "",
   fun _ => none,
   fun _ t => .ok t,
   fun _ _ => none,
   fun _ => none,
   fun _ _ _ => ("", none),
   fun _ => some [(⟨"default", "a"⟩, "x")]⟩

theorem regradeServicesSemantics_witness :
    svcC ∈ [svcA, svcB, svcC] ∧
    List.lookup svcC c8rc.podControllers = none ∧
    (List.lookup svcC (regradeCollect c8rc "latest images" [svcA, svcB, svcC]).1
        = some "no pod controller in release context; skipping regrade" ∧
     ∀ sp ∈ (regradeCollect c8rc "latest images" [svcA, svcB, svcC]).2.1,
       sp.nsSvc ≠ ⟨svcC.ns, svcC.name⟩) ∧
    c8Env.regrade (regradeCollect c8rc "latest images" [svcA, svcB, svcC]).2.1
      = some c8err ∧
    (∀ q ∈ c8err, parseServiceID (q.1.ns ++ "/" ++ q.1.svc) = .ok ⟨q.1.ns, q.1.svc⟩) ∧
    (c8err.map Prod.fst).Nodup ∧
    ((∀ p ∈ c8err,
        List.lookup (⟨p.1.ns, p.1.svc⟩ : ServiceID)
          (distributeRegradeError (regradeCollect c8rc "latest images" [svcA, svcB, svcC]).1
            c8err) = some p.2) ∧
     (∀ svc ∈ [svcA, svcB, svcC], (List.lookup svc c8rc.podControllers).isSome = true →
        (∀ p ∈ c8err, (⟨p.1.ns, p.1.svc⟩ : ServiceID) ≠ svc) →
        Effect.historyEvent svc.ns svc.name ("Regrade " ++ "latest images" ++ ": done")
          ∈ (regradeServicesDo c8Env [svcA, svcB, svcC] "latest images" c8rc).2.1)) :=
  ⟨by decide, rfl,
   (regradeServicesSemantics c8Env [svcA, svcB, svcC] "latest images" c8rc).1 svcC
     (by decide) rfl,
   rfl, by decide, by decide,
   (regradeServicesSemantics c8Env [svcA, svcB, svcC] "latest images" c8rc).2 c8err
     rfl (by decide) (by decide)⟩
